import Mathlib

/-!
Verification of the spimdisasm symbol-discovery engine (Rust sources under
`src/spimdisasm/src/`) against its natural-language specification.

Addresses (`Vram`, `Rom`) and sizes are `u32` wrappers in the source; they are
embedded as `Nat` here, with explicit `% 2 ^ 32` reductions at the points where
the source can actually overflow.  Fallible constructors (Rust `assert!` /
`Result`) become `Option` / `Except`.  Ordered maps (`BTreeMap`,
`AddendedOrderedMap`) become sorted association lists.
-/

namespace Spimdisasm

/-- `SymbolType` from `metadata` (the enum itself is not under `src/`; the
variant set is taken from the spec's closed list and from the exhaustive
`match` in `symbols/symbol_data.rs::count_padding`). -/
inductive SymbolType where
  | Function
  | BranchLabel
  | Jumptable
  | JumptableLabel
  | GccExceptTable
  | GccExceptTableLabel
  | CString
  | Byte
  | Short
  | Word
  | DWord
  | Float32
  | Float64
  | UserCustom
deriving DecidableEq, Repr

/-- Modelled from the spec: `is_label` predicate of `SymbolType` (the labels
are the three `*Label` variants). -/
def SymbolType.is_label : SymbolType → Bool
  | .BranchLabel | .JumptableLabel | .GccExceptTableLabel => true
  | _ => false

/-- Modelled from the spec: `can_reference_symbols` — whether data of this type
may hold pointers to other symbols (tables and plain words do; floats,
strings and sub-word integers do not). -/
def SymbolType.can_reference_symbols : SymbolType → Bool
  | .Word | .Jumptable | .GccExceptTable | .UserCustom => true
  | _ => false

/-- Modelled from the spec: `is_table` predicate of `SymbolType`. -/
def SymbolType.is_table : SymbolType → Bool
  | .Jumptable | .GccExceptTable => true
  | _ => false

/-- Modelled from the spec: `valid_branch_target` predicate of `SymbolType`. -/
def SymbolType.valid_branch_target : SymbolType → Bool
  | .BranchLabel | .JumptableLabel | .Function => true
  | _ => false

/-- Compiler selector (`config::Compiler` is not under `src/`; only the two
behaviours the analyzed code distinguishes matter here). -/
inductive Compiler where
  | IDO
  | GCC
deriving DecidableEq, Repr

/-- Modelled from the spec: `is_late_rodata` — late rodata holds
floats and jumptables, and only the IDO compiler emits a late-rodata region. -/
def SymbolType.is_late_rodata (t : SymbolType) (compiler : Option Compiler) : Bool :=
  match compiler with
  | some .IDO =>
    match t with
    | .Jumptable | .Float32 | .Float64 => true
    | _ => false
  | _ => false

/-- Modelled from the spec: `Compiler::prev_align_for_type`, the alignment
exponent a type requires before it (8-byte-aligned kinds report `some 3`). -/
def Compiler.prev_align_for_type (_c : Compiler) : SymbolType → Option Nat
  | .Float64 | .DWord | .Jumptable => some 3
  | .CString => some 2
  | _ => none

/-- `SectionType` from `section_type.rs` (not under `src/`; variant set from
the spec: text / data / rodata / bss / except-table). -/
inductive SectionType where
  | Text
  | Data
  | Rodata
  | Bss
  | GccExceptTable
deriving DecidableEq, Repr

/-- Endianness (`config::Endian`; not under `src/`). -/
inductive Endian where
  | Big
  | Little
deriving DecidableEq, Repr

/-- Modelled from the spec: `Endian::word_from_bytes`, assembling a `u32` from
4 bytes honouring the configured endianness. -/
def Endian.word_from_bytes (e : Endian) (b : List Nat) : Nat :=
  let b0 := b.getD 0 0
  let b1 := b.getD 1 0
  let b2 := b.getD 2 0
  let b3 := b.getD 3 0
  match e with
  | .Big => b0 * 2 ^ 24 + b1 * 2 ^ 16 + b2 * 2 ^ 8 + b3
  | .Little => b3 * 2 ^ 24 + b2 * 2 ^ 16 + b1 * 2 ^ 8 + b0

/-- Modelled from the spec: `Endian::dword_from_bytes`, assembling a `u64`
from 8 bytes. -/
def Endian.dword_from_bytes (e : Endian) (b : List Nat) : Nat :=
  match e with
  | .Big => e.word_from_bytes (b.take 4) * 2 ^ 32 + e.word_from_bytes (b.drop 4)
  | .Little => e.word_from_bytes ((b.drop 4).take 4) * 2 ^ 32 + e.word_from_bytes (b.take 4)

/-! ## Address ranges (`address_range.rs` is not under `src/`)

Modelled from the spec: `AddressRange<T>` is a closed-open interval
`[start, end)` with `start ≤ end`; `size = end - start`; `in_range` is
membership in the closed-open interval. -/

/-- Closed-open address interval `[start, end)` over `u32` addresses. -/
structure AddressRange where
  start : Nat
  stop : Nat
deriving DecidableEq, Repr

/-- Modelled from the spec: `AddressRange::size`, `end - start`. -/
def AddressRange.size (r : AddressRange) : Nat := r.stop - r.start

/-- Modelled from the spec: `AddressRange::in_range`, membership in
`[start, end)`. -/
def AddressRange.in_range (r : AddressRange) (addr : Nat) : Bool :=
  r.start ≤ addr && addr < r.stop

/-! ## `RomVramRange` (`rom_vram_range.rs`, under `src/`) -/

structure RomVramRange where
  rom : AddressRange
  vram : AddressRange
deriving DecidableEq, Repr

/-- `RomVramRange::new` from `rom_vram_range.rs`.  The constructor runs four
`assert!`s in order; a failed assertion is a fatal abort, embedded as `none`:
1. `vram.size() >= rom.size()`;
2. `rom.size() > 0`;
3. `vram.size() > 0`;
4. `vram.start % 4 == rom.start % 4`. -/
def RomVramRange.new (rom vram : AddressRange) : Option RomVramRange :=
  if vram.size ≥ rom.size then
    if rom.size > 0 then
      if vram.size > 0 then
        if vram.start % 4 = rom.start % 4 then
          some ⟨rom, vram⟩
        else none
      else none
    else none
  else none

/-- `RomVramRange::in_rom_range`. -/
def RomVramRange.in_rom_range (r : RomVramRange) (rom : Nat) : Bool :=
  r.rom.in_range rom

/-- `RomVramRange::in_vram_range`. -/
def RomVramRange.in_vram_range (r : RomVramRange) (vram : Nat) : Bool :=
  r.vram.in_range vram

/-- `RomVramRange::rom_from_vram`: inside the vram range, rom start plus the
delta. -/
def RomVramRange.rom_from_vram (r : RomVramRange) (vram : Nat) : Option Nat :=
  if r.vram.in_range vram then some (r.rom.start + (vram - r.vram.start)) else none

/-! ## `ReferencedAddress` (`analysis/referenced_address.rs`, under `src/`)

The three `UnorderedMap` histograms are embedded as association lists whose
keys are pairwise distinct; `len` is the number of entries. -/

structure ReferencedAddress where
  vram : Nat
  sym_type_hist : List (SymbolType × Nat)
  sizes : List (Option Nat × Nat)
  alignments : List (Option Nat × Nat)
  reference_count : Nat
deriving DecidableEq, Repr

/-- `ReferencedAddress::new`. -/
def ReferencedAddress.new (vram : Nat) : ReferencedAddress :=
  { vram := vram, sym_type_hist := [], sizes := [], alignments := [], reference_count := 0 }

/-- `ReferencedAddress::sym_type`: the single key when the type histogram has
exactly one entry, `None` otherwise. -/
def ReferencedAddress.sym_type (a : ReferencedAddress) : Option SymbolType :=
  if a.sym_type_hist.length = 1 then
    (a.sym_type_hist.head?).map (fun p => p.1)
  else
    none

/-- `ReferencedAddress::size`: when the size histogram has exactly one entry
the single key — itself an `Option` — is flattened (`and_then`). -/
def ReferencedAddress.size (a : ReferencedAddress) : Option Nat :=
  if a.sizes.length = 1 then
    (a.sizes.head?).bind (fun p => p.1)
  else
    none

/-- `ReferencedAddress::alignment`: same shape as `size`. -/
def ReferencedAddress.alignment (a : ReferencedAddress) : Option Nat :=
  if a.alignments.length = 1 then
    (a.alignments.head?).bind (fun p => p.1)
  else
    none

/-- `entry(k).or_default() += 1` on an association-list histogram. -/
def histIncr {α : Type} [DecidableEq α] : List (α × Nat) → α → List (α × Nat)
  | [], k => [(k, 1)]
  | (k', c) :: rest, k =>
    if k' = k then (k', c + 1) :: rest else (k', c) :: histIncr rest k

/-- `ReferencedAddress::set_sym_type`. -/
def ReferencedAddress.set_sym_type (a : ReferencedAddress) (t : SymbolType) :
    ReferencedAddress :=
  { a with sym_type_hist := histIncr a.sym_type_hist t }

/-- `ReferencedAddress::set_size` (note: the *key* inserted is the `Option`
argument itself, so `None` votes are recorded as a distinct key). -/
def ReferencedAddress.set_size (a : ReferencedAddress) (val : Option Nat) :
    ReferencedAddress :=
  { a with sizes := histIncr a.sizes val }

/-- `ReferencedAddress::set_alignment`. -/
def ReferencedAddress.set_alignment (a : ReferencedAddress) (val : Option Nat) :
    ReferencedAddress :=
  { a with alignments := histIncr a.alignments val }

/-- `ReferencedAddress::increment_references`. -/
def ReferencedAddress.increment_references (a : ReferencedAddress) : ReferencedAddress :=
  { a with reference_count := a.reference_count + 1 }

/-! ## Symbol metadata (`metadata/symbol_metadata.rs`, under `src/`)

Only the fields the analyzed operations read or write are carried. -/

/-- `GeneratedBy` from `metadata/symbol_metadata.rs`. -/
inductive GeneratedBy where
  | Autogenerated
  | UserDeclared
deriving DecidableEq, Repr

/-- `rabbitizer::access_type::AccessType` (external decoder crate); the
variants used by the analyzed code. -/
inductive AccessType where
  | BYTE
  | SHORT
  | WORD
  | DOUBLEWORD
  | FLOAT
  | DOUBLEFLOAT
  | WORD_LEFT
  | WORD_RIGHT
  | DOUBLEWORD_LEFT
  | DOUBLEWORD_RIGHT
deriving DecidableEq, Repr

structure SymbolMetadata where
  generated_by : GeneratedBy
  vram : Nat
  rom : Option Nat
  user_declared_name : Option String
  user_declared_size : Option Nat
  autodetected_size : Option Nat
  user_declared_type : Option SymbolType
  autodetected_type : Option SymbolType
  section_type : Option SectionType
  is_defined : Bool
  access_type : Option (AccessType × Bool)
  reference_counter : Nat
deriving DecidableEq, Repr

/-- `SymbolMetadata::new`. -/
def SymbolMetadata.new (generated_by : GeneratedBy) (vram : Nat) : SymbolMetadata :=
  { generated_by := generated_by, vram := vram, rom := none,
    user_declared_name := none, user_declared_size := none, autodetected_size := none,
    user_declared_type := none, autodetected_type := none, section_type := none,
    is_defined := false, access_type := none, reference_counter := 0 }

/-- `SymbolMetadata::size`: user-declared size wins over the autodetected
one. -/
def SymbolMetadata.size (m : SymbolMetadata) : Option Nat :=
  match m.user_declared_size with
  | some s => some s
  | none => m.autodetected_size

/-- `SymbolMetadata::sym_type`: user-declared type wins over the autodetected
one. -/
def SymbolMetadata.sym_type (m : SymbolMetadata) : Option SymbolType :=
  match m.user_declared_type with
  | some t => some t
  | none => m.autodetected_type

/-- `SymbolMetadata::is_trustable_function` — the source currently returns
`true` unconditionally (marked TODO). -/
def SymbolMetadata.is_trustable_function (_m : SymbolMetadata) : Bool := true

/-- `SymbolMetadata::set_type` (and the priority-aware variant
`set_type_with_priorities`, which is not under `src/`; modelled from the
spec: the user-declared slot and the autodetected slot are separate and the
user-declared one wins on read). -/
def SymbolMetadata.set_type_with_priorities (m : SymbolMetadata) (t : SymbolType)
    (generated_by : GeneratedBy) : SymbolMetadata :=
  match generated_by with
  | .Autogenerated => { m with autodetected_type := some t }
  | .UserDeclared => { m with user_declared_type := some t }

/-- Modelled from the spec: `SymbolMetadata::add_reference_function` (not
under `src/`) bumps `reference_counter` by one — "how many sites reference
this symbol"; the metadata struct under `src/` stores only the bare counter
and its kept Python reference does `referenceCounter += 1` per site. -/
def SymbolMetadata.add_reference_function (m : SymbolMetadata) (_function_vram : Nat)
    (_instr_rom : Nat) : SymbolMetadata :=
  { m with reference_counter := m.reference_counter + 1 }

/-- Modelled from the spec: `SymbolMetadata::set_access_type_if_unset` (not
under `src/`) records the access type of the first lo-access only. -/
def SymbolMetadata.set_access_type_if_unset (m : SymbolMetadata)
    (a : AccessType × Bool) : SymbolMetadata :=
  match m.access_type with
  | some _ => m
  | none => { m with access_type := some a }

/-! ## Addend-tolerant symbol lookup

`collections/addended_ordered_map.rs` is not under `src/`.  Modelled from the
spec: lookups are keyed by start `vram` and "accept an optional addend
tolerance that resolves a hit when the query falls inside
`[vram, vram + size)`"; without the tolerance only an exact key matches. -/

/-- `FindSettings::new(check_addend)`. -/
structure FindSettings where
  check_addend : Bool
deriving DecidableEq, Repr

/-- Modelled from the spec: whether a stored record resolves a query `vram`
under the given settings. -/
def metadata_hit (settings : FindSettings) (m : SymbolMetadata) (vram : Nat) : Bool :=
  if settings.check_addend then
    m.vram = vram ||
      (match m.size with
       | some s => m.vram < vram && vram < m.vram + s
       | none => false)
  else
    m.vram = vram

/-- Modelled from the spec: `AddendedOrderedMap::find_mut_or_insert_with` —
the matching record and `newly_created = false`, or a freshly inserted
record built by the default constructor and `newly_created = true`. -/
def find_mut_or_insert_with (syms : List SymbolMetadata) (vram : Nat)
    (settings : FindSettings) (mk : SymbolMetadata) :
    SymbolMetadata × Bool × List SymbolMetadata :=
  match syms.find? (fun m => metadata_hit settings m vram) with
  | some m => (m, false, syms)
  | none => (mk, true, syms ++ [mk])

/-! ## `SegmentBuilder::add_user_symbol`
(`context/builder/segment_builder.rs`, under `src/`) -/

inductive AddUserSymbolError where
  | VramOutOfRange
  | RomOutOfRange
  | Overlap
  | Duplicated
deriving DecidableEq, Repr

structure SegmentBuilder where
  ranges : RomVramRange
  user_symbols : List SymbolMetadata
deriving DecidableEq, Repr

/-- `SegmentBuilder::add_user_symbol`: validate `rom`/`vram` against the
segment ranges, look up with addend tolerance unless the new type is a label,
then the overlap / duplicate / fresh-record triage of the source. -/
def SegmentBuilder.add_user_symbol (seg : SegmentBuilder) (name : String) (vram : Nat)
    (rom : Option Nat) (sym_type : Option SymbolType) :
    Except AddUserSymbolError SegmentBuilder :=
  if (match rom with
      | some r => !(seg.ranges.in_rom_range r)
      | none => false) then
    .error .RomOutOfRange
  else if !(seg.ranges.in_vram_range vram) then
    .error .VramOutOfRange
  else
    let check_addend := !(sym_type.any (fun x => x.is_label))
    let fmi := find_mut_or_insert_with seg.user_symbols vram ⟨check_addend⟩
      (SymbolMetadata.new .UserDeclared vram)
    let sym := fmi.1
    let newly_created := fmi.2.1
    if sym.vram ≠ vram &&
        !(sym.is_trustable_function && sym_type.any (fun x => x.is_label)) then
      .error .Overlap
    else if !newly_created then
      .error .Duplicated
    else
      let updated := { sym with
        user_declared_name := some name,
        rom := rom }
      let updated :=
        match sym_type with
        | some t => updated.set_type_with_priorities t .UserDeclared
        | none => updated
      .ok { seg with
        user_symbols := fmi.2.2.map (fun m => if m.vram = sym.vram then updated else m) }

/-! ## Segment-level helpers for function-symbol materialization

`SegmentMetadata` itself is not under `src/`; the pieces used by
`symbols/before_proc/function_sym.rs` are modelled from the spec
(§4.2: a keyed-by-start, addend-tolerant map of `SymbolMetadata`). -/

structure SegmentMetadata where
  syms : List SymbolMetadata
  ignored_vrams : List Nat
  is_unknown_segment : Bool
deriving DecidableEq, Repr

/-- Modelled from the spec: `SegmentMetadata::add_symbol(vram, check_addend)`
returns the covering record, or freshly inserts an autogenerated one; the
result is the updated segment plus the key (start vram) of that record. -/
def SegmentMetadata.add_symbol (seg : SegmentMetadata) (vram : Nat)
    (check_addend : Bool) : SegmentMetadata × Nat :=
  match seg.syms.find? (fun m => metadata_hit ⟨check_addend⟩ m vram) with
  | some m => (seg, m.vram)
  | none =>
    ({ seg with syms := seg.syms ++ [SymbolMetadata.new .Autogenerated vram] }, vram)

/-- Modelled from the spec: `is_vram_ignored`. -/
def SegmentMetadata.is_vram_ignored (seg : SegmentMetadata) (vram : Nat) : Bool :=
  seg.ignored_vrams.contains vram

/-- Apply a metadata update to the record keyed `key` (the `&mut` returned by
`add_symbol` in the source). -/
def SegmentMetadata.update_sym (seg : SegmentMetadata) (key : Nat)
    (f : SymbolMetadata → SymbolMetadata) : SegmentMetadata :=
  { seg with syms := seg.syms.map (fun m => if m.vram = key then f m else m) }

/-- Lookup by start vram. -/
def SegmentMetadata.find_by_vram (seg : SegmentMetadata) (vram : Nat) :
    Option SymbolMetadata :=
  seg.syms.find? (fun m => m.vram = vram)

/-! ## `FunctionSym` analysis-result processing
(`symbols/before_proc/function_sym.rs`, under `src/`) -/

/-- Body of the `branch_targets()` loop of
`FunctionSym::process_instr_analysis_result_owned` (one entry): add the label
symbol, set rom / type / section, and register the referencing site once. -/
def FunctionSym.process_branch_target (owned_segment : SegmentMetadata)
    (ranges : RomVramRange) (instr_rom target_vram : Nat) : SegmentMetadata :=
  let si := owned_segment.add_symbol target_vram false
  si.1.update_sym si.2 (fun m =>
    let m := { m with rom := ranges.rom_from_vram target_vram }
    let m := m.set_type_with_priorities .BranchLabel .Autogenerated
    let m := { m with section_type := some SectionType.Text }
    let m := m.add_reference_function ranges.vram.start instr_rom
    { m with is_defined := true })

/-- Body of the `branch_targets_outside()` loop of
`FunctionSym::process_instr_analysis_result_owned` (one entry).  The source
calls `add_reference_function` twice in a row with identical arguments
(lines 137–146), so the site is registered twice. -/
def FunctionSym.process_branch_target_outside (owned_segment : SegmentMetadata)
    (ranges : RomVramRange) (instr_rom target_vram : Nat) : SegmentMetadata :=
  let si := owned_segment.add_symbol target_vram false
  si.1.update_sym si.2 (fun m =>
    let m := { m with rom := ranges.rom_from_vram target_vram }
    let m := m.set_type_with_priorities .BranchLabel .Autogenerated
    let m := { m with section_type := some SectionType.Text }
    let m := m.add_reference_function ranges.vram.start instr_rom
    m.add_reference_function ranges.vram.start instr_rom)

/-- The single-access-type extraction at the head of the
`address_per_lo_instr()` loop: the one key of the per-address histogram when
it has exactly one entry. -/
def FunctionSym.single_sym_access
    (info : Option (List ((AccessType × Bool) × Nat))) : Option (AccessType × Bool) :=
  match info with
  | some l => if l.length = 1 then l.head?.map (fun p => p.1) else none
  | none => none

/-- The `realigned_symbol_vram` computation of the `address_per_lo_instr()`
loop (`function_sym.rs` lines 260–269): only `WORD_LEFT/RIGHT` (align down
to 4) and `DOUBLEWORD_LEFT/RIGHT` (align down to 8) accesses realign; every
other access — including `FLOAT` — keeps the vram unchanged. -/
def FunctionSym.realigned_symbol_vram (sym_access : Option (AccessType × Bool))
    (symbol_vram : Nat) : Nat :=
  match sym_access with
  | some (.WORD_LEFT, _) | some (.WORD_RIGHT, _) => symbol_vram - symbol_vram % 4
  | some (.DOUBLEWORD_LEFT, _) | some (.DOUBLEWORD_RIGHT, _) =>
    symbol_vram - symbol_vram % 8
  | _ => symbol_vram

/-- Body of the `address_per_lo_instr()` loop of
`FunctionSym::process_instr_analysis_result_referenced` (one entry), acting
on the segment that owns the referenced address. -/
def FunctionSym.process_lo_entry (referenced_segment : SegmentMetadata)
    (type_info_per_address : List (Nat × List ((AccessType × Bool) × Nat)))
    (ranges : RomVramRange) (instr_rom symbol_vram : Nat) : SegmentMetadata :=
  let sym_access := FunctionSym.single_sym_access
    ((type_info_per_address.find? (fun p => p.1 = symbol_vram)).map (fun p => p.2))
  let realigned := FunctionSym.realigned_symbol_vram sym_access symbol_vram
  if referenced_segment.is_vram_ignored realigned then
    referenced_segment
  else
    let si := referenced_segment.add_symbol realigned true
    let seg := si.1.update_sym si.2
      (fun m => m.add_reference_function ranges.vram.start instr_rom)
    let seg :=
      if seg.is_unknown_segment then
        match sym_access with
        | some (.WORD_LEFT, _) | some (.WORD_RIGHT, _) =>
          seg.update_sym si.2 (fun m =>
            { m with autodetected_size := some (max (m.autodetected_size.getD 4) 4) })
        | some (.DOUBLEWORD_LEFT, _) | some (.DOUBLEWORD_RIGHT, _) =>
          seg.update_sym si.2 (fun m =>
            { m with autodetected_size := some (max (m.autodetected_size.getD 8) 8) })
        | _ => seg
      else seg
    match sym_access with
    | some sa => seg.update_sym si.2 (fun m => m.set_access_type_if_unset sa)
    | none => seg

/-! ## Relocations (`relocation.rs` is not under `src/`; the enum variants and
record shape are taken from the spec §6 and the construction sites in
`symbols/symbol_function.rs`) -/

inductive RelocationType where
  | R_MIPS_32
  | R_MIPS_26
  | R_MIPS_HI16
  | R_MIPS_LO16
  | R_MIPS_PC16
  | R_MIPS_GPREL16
  | R_CUSTOM_CONSTANT_HI
  | R_CUSTOM_CONSTANT_LO
deriving DecidableEq, Repr

/-- `RelocReferencedSym`: a referent tagged by absolute address or by a
literal symbol name plus offset. -/
inductive RelocReferencedSym where
  | Address (vram : Nat)
  | SymName (name : String) (offset : Nat)
deriving DecidableEq, Repr

structure RelocationInfo where
  reloc_type : RelocationType
  referenced_sym : RelocReferencedSym
deriving DecidableEq, Repr

/-- `RelocationType::new_reloc_info`. -/
def RelocationType.new_reloc_info (t : RelocationType) (s : RelocReferencedSym) :
    RelocationInfo :=
  ⟨t, s⟩

/-- One uppercase hex digit. -/
def hexDigitChar (n : Nat) : Char :=
  if n < 10 then Char.ofNat (48 + n) else Char.ofNat (55 + n)

/-- Uppercase hex digit string of `n` (empty for 0). -/
def hexRep (n : Nat) : List Char :=
  if h : n = 0 then []
  else hexRep (n / 16) ++ [hexDigitChar (n % 16)]
decreasing_by exact Nat.div_lt_self (Nat.pos_of_ne_zero h) (by norm_num)

/-- Rust `format!("0x{:X}", n)`. -/
def hex_format (n : Nat) : String :=
  "0x" ++ (if n = 0 then "0" else String.mk (hexRep n))

/-- The slice of `rabbitizer::Instruction` the reloc generator reads:
`instr.opcode().can_be_hi()`. -/
structure Instruction where
  can_be_hi : Bool
deriving DecidableEq, Repr

instance : Inhabited Instruction := ⟨⟨false⟩⟩

/-- The slice of `InstructionAnalysisResult` (`analysis/`, not under `src/`)
that `SymbolFunction::generate_relocs_from_analyzer` reads; the three maps
are embedded as association lists `instr rom ↦ value`. -/
structure InstructionAnalysisResult where
  hi_instrs : List (Nat × (Nat × Nat))
  address_per_hi_instr : List (Nat × Nat)
  constant_per_instr : List (Nat × Nat)
deriving DecidableEq, Repr

/-- Body of the `constant_per_instr()` loop of
`generate_relocs_from_analyzer`: `R_CUSTOM_CONSTANT_HI/LO` depending on
`opcode().can_be_hi()`, referencing the formatted constant. -/
def constant_reloc_step (instrs : List Instruction) (rom_start : Nat)
    (rl : List (Option RelocationInfo)) (e : Nat × Nat) :
    List (Option RelocationInfo) :=
  let instr_index := (e.1 - rom_start) / 4
  let instr := instrs.getD instr_index default
  let reloc_type := if instr.can_be_hi then RelocationType.R_CUSTOM_CONSTANT_HI
    else RelocationType.R_CUSTOM_CONSTANT_LO
  rl.set instr_index
    (some (reloc_type.new_reloc_info (.SymName (hex_format e.2) 0)))

/-- Body of the unpaired-`lui` loop of `generate_relocs_from_analyzer`: a hi
instruction present in neither `address_per_hi_instr` nor
`constant_per_instr` gets `R_CUSTOM_CONSTANT_HI` with constant
`(hi_imm as u32) << 16`. -/
def unpaired_lui_step (instr_analysis : InstructionAnalysisResult) (rom_start : Nat)
    (rl : List (Option RelocationInfo)) (e : Nat × (Nat × Nat)) :
    List (Option RelocationInfo) :=
  if (instr_analysis.address_per_hi_instr.find? (fun p => p.1 = e.1)).isNone &&
      (instr_analysis.constant_per_instr.find? (fun p => p.1 = e.1)).isNone then
    let instr_index := (e.1 - rom_start) / 4
    let constant := (e.2.2 * 2 ^ 16) % 2 ^ 32
    rl.set instr_index
      (some (RelocationType.R_CUSTOM_CONSTANT_HI.new_reloc_info
        (.SymName (hex_format constant) 0)))
  else rl

/-- `SymbolFunction::generate_relocs_from_analyzer`
(`symbols/symbol_function.rs`, under `src/`): the two loops that survive in
the Rust code — the `constant_per_instr()` loop, then the unpaired-`lui`
loop.  `(*hi_imm as u32) << 16` becomes `(imm * 2 ^ 16) % 2 ^ 32`.
(Out-of-range instruction indices, a panic in Rust, read a default
instruction and write nowhere.) -/
def generate_relocs_from_analyzer (relocs : List (Option RelocationInfo))
    (instr_analysis : InstructionAnalysisResult) (rom_start : Nat)
    (instrs : List Instruction) : List (Option RelocationInfo) :=
  instr_analysis.hi_instrs.foldl (unpaired_lui_step instr_analysis rom_start)
    (instr_analysis.constant_per_instr.foldl (constant_reloc_step instrs rom_start) relocs)

/-! ## Sorted association-list maps

`BTreeMap<Vram, _>` (and the `UnorderedMap` used for `auto_pads`) embedded as
association lists kept sorted by key; `btree_insert` replaces an existing
binding, `btree_entry_or_default` is `entry(k).or_default()` on an
`Option`-valued map (inserts `none` when vacant). -/

def btree_insert {α : Type} : List (Nat × α) → Nat → α → List (Nat × α)
  | [], k, v => [(k, v)]
  | (k', v') :: rest, k, v =>
    if k < k' then (k, v) :: (k', v') :: rest
    else if k = k' then (k, v) :: rest
    else (k', v') :: btree_insert rest k v

def btree_get? {α : Type} : List (Nat × α) → Nat → Option α
  | [], _ => none
  | (k', v') :: rest, k => if k = k' then some v' else btree_get? rest k

def btree_entry_or_default (m : List (Nat × Option SymbolType)) (k : Nat) :
    List (Nat × Option SymbolType) :=
  match btree_get? m k with
  | some _ => m
  | none => btree_insert m k none

/-! ## The data/rodata symbol scan
(`sections/before_proc/data_section.rs::find_symbols`, under `src/`) -/

/-- `ReferenceWrapper` (§4.2): the uniform read-only view of a reference-table
entry the scan consumes (the wrapper type itself is not under `src/` and is
modelled from the spec). -/
structure ReferenceWrapper where
  vram : Nat
  sym_type : Option SymbolType
  size : Option Nat
  user_declared_size : Option Nat
  reference_counter : Nat
deriving DecidableEq, Repr

/-- Modelled from the spec: whether a reference-table record resolves a query
under the optional addend tolerance (`[vram, vram + size)`). -/
def reference_hit (check_addend : Bool) (r : ReferenceWrapper) (v : Nat) : Bool :=
  if check_addend then
    r.vram = v ||
      (match r.size with
       | some s => r.vram < v && v < r.vram + s
       | none => false)
  else
    r.vram = v

/-- Everything `find_symbols` reads: the owned segment's reference table and
ignore list, the section settings, the raw bytes, and the section placement.
`guess` is the external string guesser
(`settings.string_guesser_level.guess(current_ref, vram, bytes[offset..],
encoding, late)`), parametrized here by the current reference, the byte
offset into the section, and the late-rodata flag. -/
structure DataScanInput where
  refs : List ReferenceWrapper
  ignored_vrams : List Nat
  compiler : Option Compiler
  guess : Option ReferenceWrapper → Nat → Bool → Except Unit Nat
  raw_bytes : List Nat
  vram_start : Nat
  section_type : SectionType
  endian : Endian

def DataScanInput.vram_end (env : DataScanInput) : Nat :=
  env.vram_start + env.raw_bytes.length

/-- `vram_range.in_range` for the scanned section. -/
def DataScanInput.in_vram_range (env : DataScanInput) (v : Nat) : Bool :=
  env.vram_start ≤ v && v < env.vram_end

/-- `owned_segment.find_reference(v, FindSettings::new(check_addend))`. -/
def DataScanInput.find_reference (env : DataScanInput) (v : Nat) (check_addend : Bool) :
    Option ReferenceWrapper :=
  env.refs.find? (fun r => reference_hit check_addend r v)

/-- `owned_segment.find_references_range(lo, hi)` (§4.2: all references with
`vram ∈ [lo, hi)`). -/
def DataScanInput.find_references_range (env : DataScanInput) (lo hi : Nat) :
    List ReferenceWrapper :=
  env.refs.filter (fun r => lo ≤ r.vram && r.vram < hi)

/-- `owned_segment.is_vram_ignored`. -/
def DataScanInput.is_vram_ignored (env : DataScanInput) (v : Nat) : Bool :=
  env.ignored_vrams.contains v

/-- The 4-byte chunk at a byte offset. -/
def word_bytes_at (bytes : List Nat) (off : Nat) : List Nat :=
  (bytes.drop off).take 4

/-- Rust `next_multiple_of` on `u32` (round up to a multiple of `m`). -/
def next_multiple_of (n m : Nat) : Nat :=
  (n + m - 1) / m * m

/-- The mutable state of the `find_symbols` scan loop. -/
structure DataScanState where
  symbols_info : List (Nat × Option SymbolType)
  auto_pads : List (Nat × Nat)
  remaining_string_size : Int
  prev_sym_info : Option (Nat × Option SymbolType)
  maybe_reached_late_rodata : Bool
  reached_late_rodata : Bool
  float_counter : Nat
  float_padding_counter : Nat
deriving DecidableEq, Repr

/-- Loop-entry state: the section start is pre-inserted as a cut point. -/
def DataScanState.init (env : DataScanInput) : DataScanState :=
  { symbols_info := [(env.vram_start, none)], auto_pads := [],
    remaining_string_size := 0, prev_sym_info := none,
    maybe_reached_late_rodata := false, reached_late_rodata := false,
    float_counter := 0, float_padding_counter := 0 }

/-- `find_symbols` lines 220–264: the late-rodata confirmation plus the
float/padding counter updates. -/
def float_track (env : DataScanInput) (s : DataScanState)
    (a : Option ReferenceWrapper) (current_type : Option SymbolType)
    (current_vram local_offset word : Nat) : DataScanState :=
  let s :=
    if s.maybe_reached_late_rodata &&
        (current_type = some SymbolType.Float32 ||
          current_type = some SymbolType.Float64) && a.isSome then
      { s with reached_late_rodata := true }
    else s
  match a with
  | some wrapper =>
    if wrapper.sym_type = some SymbolType.Float32 ||
        wrapper.sym_type = some SymbolType.Float64 then
      { s with float_counter := 1, float_padding_counter := 0 }
    else
      { s with float_counter := 0, float_padding_counter := 0 }
  | none =>
    if current_type = some SymbolType.Float32 then
      { s with
        float_counter := s.float_counter + 1,
        float_padding_counter :=
          if word = 0 then s.float_padding_counter + 1 else s.float_padding_counter }
    else if current_type = some SymbolType.Float64 then
      if current_vram % 8 = 0 then
        if local_offset + 8 ≤ env.raw_bytes.length then
          { s with
            float_counter := s.float_counter + 1,
            float_padding_counter :=
              if env.endian.dword_from_bytes ((env.raw_bytes.drop local_offset).take 8)
                  = 0 then
                s.float_padding_counter + 1
              else s.float_padding_counter }
        else { s with float_counter := 0, float_padding_counter := 0 }
      else s
    else { s with float_counter := 0, float_padding_counter := 0 }

/-- `find_symbols` lines 266–286: record the in-section pointer target as a
cut point, unless the word lands mid-symbol (addend) on a non-table. -/
def pointer_search (env : DataScanInput) (s : DataScanState)
    (current_type : Option SymbolType) (word : Nat) : DataScanState :=
  let should_search_for_address :=
    match current_type with
    | none => true
    | some t => t.can_reference_symbols
  let word_vram := word
  if should_search_for_address then
    if !(env.is_vram_ignored word_vram) && env.in_vram_range word_vram then
      let word_ref := env.find_reference word_vram true
      if (match word_ref with
          | none => true
          | some x =>
            x.vram = word_vram ||
              (match current_type with
               | some t => t.is_table
               | none => false)) then
        { s with symbols_info := btree_entry_or_default s.symbols_info word_vram }
      else s
    else s
  else s

/-- `find_symbols` lines 336–387: the 8-byte string padding absorption —
when the word after the guessed string is zero, unreferenced padding and the
8-aligned successor warrants it, the string symbol absorbs the padding word
(`next_vram += 4`). -/
def string_pad_next_vram (env : DataScanInput)
    (current_vram local_offset str_sym_size : Nat) : Nat :=
  let next_vram := current_vram + str_sym_size
  if next_vram % 8 = 4 then
    if local_offset + str_sym_size + 4 ≤ env.raw_bytes.length then
      if env.endian.word_from_bytes
          (word_bytes_at env.raw_bytes (local_offset + str_sym_size)) = 0 then
        if (match env.find_reference next_vram false with
            | none => true
            | some x => x.reference_counter = 0) then
          let next_next_vram := next_multiple_of next_vram 8
          if env.in_vram_range next_next_vram then
            match env.compiler with
            | some compiler =>
              if (match env.find_reference next_next_vram false with
                  | some x =>
                    match x.sym_type with
                    | some t =>
                      match compiler.prev_align_for_type t with
                      | some al => decide (3 ≤ al)
                      | none => false
                    | none => false
                  | none => false) then
                next_vram + 4
              else next_vram
            | none => next_vram
          else if env.vram_end = next_next_vram then next_vram + 4
          else next_vram
        else next_vram
      else next_vram
    else next_vram
  else next_vram

/-- `find_symbols` lines 288–405: the string guesser, the in-between
reference check, the padding absorption, and the one-past-the-string pad
cut. -/
def string_guess (env : DataScanInput) (s : DataScanState)
    (current_vram local_offset word : Nat) : DataScanState :=
  let word_vram := word
  let word_ref := env.find_reference word_vram true
  if !(env.is_vram_ignored current_vram) &&
      (match word_ref with
       | none => true
       | some x =>
         match x.sym_type with
         | some SymbolType.Function => x.vram ≠ word_vram
         | some t => if t.is_label then x.vram ≠ word_vram else false
         | none => false) then
    let current_ref := env.find_reference current_vram true
    if (match current_ref with
        | none => true
        | some x => x.vram = current_vram) then
      match env.guess current_ref local_offset
          (s.maybe_reached_late_rodata || s.reached_late_rodata) with
      | .ok str_size =>
        let str_sym_size := next_multiple_of str_size 4
        let in_between := env.find_references_range (current_vram + 1)
          (current_vram + str_sym_size)
        if in_between = [] then
          let s := { s with
            remaining_string_size := (str_size : Int),
            symbols_info :=
              btree_insert s.symbols_info current_vram (some SymbolType.CString),
            auto_pads :=
              if (btree_get? s.auto_pads current_vram).isSome then s.auto_pads
              else btree_insert s.auto_pads current_vram current_vram }
          let next_vram := string_pad_next_vram env current_vram local_offset str_sym_size
          let s :=
            if env.in_vram_range next_vram && !(env.is_vram_ignored next_vram) then
              { s with
                symbols_info := btree_entry_or_default s.symbols_info next_vram,
                auto_pads := btree_insert s.auto_pads next_vram current_vram }
            else s
          { s with prev_sym_info := none }
        else s
      | .error _ => s
    else s
  else s

/-- `find_symbols` lines 408–433 (one element of the
`[(current_vram, a), (b_vram, b), (c_vram, c), (d_vram, d)]` loop): record
the found reference as a cut point, synthesize the auto-pad after a
user-declared size (skipped for a `CString` whose end is not word-aligned,
and at the section end), and remember it as the previous symbol. -/
def prior_reference_step (env : DataScanInput) (s : DataScanState)
    (x_vram : Nat) (x : Option ReferenceWrapper) : DataScanState :=
  if env.is_vram_ignored x_vram then s
  else
    match x with
    | some reference =>
      let s := { s with
        symbols_info := btree_entry_or_default s.symbols_info reference.vram }
      let s :=
        match reference.user_declared_size with
        | some size =>
          let next_vram := reference.vram + size
          if env.in_vram_range next_vram then
            let allow_next :=
              match reference.sym_type with
              | some SymbolType.CString => decide (next_vram % 4 = 0)
              | _ => true
            if allow_next then
              { s with
                symbols_info := btree_entry_or_default s.symbols_info next_vram,
                auto_pads := btree_insert s.auto_pads next_vram reference.vram }
            else s
          else s
        | none => s
      { s with prev_sym_info := some (x_vram, reference.sym_type) }
    | none => s

/-- `find_symbols` lines 436–453: reset `maybe_reached_late_rodata`, run the
late-rodata trigger (jumptable, or a float cluster with
`padding + 1 == count`), and consume 4 bytes of any pending string. -/
def late_rodata_trailer (env : DataScanInput) (s : DataScanState) : DataScanState :=
  let s := { s with maybe_reached_late_rodata := false }
  let s :=
    if !s.reached_late_rodata && env.section_type = SectionType.Rodata &&
        (match s.prev_sym_info with
         | some p =>
           match p.2 with
           | some t => t.is_late_rodata env.compiler
           | none => false
         | none => false) then
      if (match s.prev_sym_info with
          | some p => decide (p.2 = some SymbolType.Jumptable)
          | none => false) then
        { s with reached_late_rodata := true }
      else if s.float_padding_counter + 1 = s.float_counter then
        { s with maybe_reached_late_rodata := true }
      else s
    else s
  { s with remaining_string_size := s.remaining_string_size - 4 }

/-- One iteration of the `raw_bytes.chunks_exact(4)` loop of
`find_symbols` (word index `i`). -/
def data_scan_step (env : DataScanInput) (s : DataScanState) (i : Nat) : DataScanState :=
  let local_offset := 4 * i
  let current_vram := env.vram_start + local_offset
  let b_vram := current_vram + 1
  let c_vram := current_vram + 2
  let d_vram := current_vram + 3
  let s :=
    if s.remaining_string_size ≤ 0 then
      let a := env.find_reference current_vram false
      let b := env.find_reference b_vram false
      let c := env.find_reference c_vram false
      let d := env.find_reference d_vram false
      let s :=
        if b.isNone && c.isNone && d.isNone then
          let word := env.endian.word_from_bytes (word_bytes_at env.raw_bytes local_offset)
          let current_type :=
            match a with
            | none =>
              match s.prev_sym_info with
              | some p => p.2
              | none => none
            | some wrapper => wrapper.sym_type
          let s := float_track env s a current_type current_vram local_offset word
          let s := pointer_search env s current_type word
          string_guess env s current_vram local_offset word
        else s
      let s := prior_reference_step env s current_vram a
      let s := prior_reference_step env s b_vram b
      let s := prior_reference_step env s c_vram c
      prior_reference_step env s d_vram d
    else s
  late_rodata_trailer env s

/-- The word-aligned scan of `find_symbols`: fold the step over every exact
4-byte chunk starting from the init state. -/
def data_scan (env : DataScanInput) : DataScanState :=
  (List.range (env.raw_bytes.length / 4)).foldl (data_scan_step env)
    (DataScanState.init env)

/-- The fallback path of `find_symbols` (lines 163–183): non-word-aligned
start or a `GccExceptTable` section — only the reference table and the
`reference.size()` pads produce cut points. -/
def find_symbols_fallback (env : DataScanInput) :
    List (Nat × Option SymbolType) × List (Nat × Nat) :=
  (env.find_references_range env.vram_start env.vram_end).foldl
    (fun acc reference =>
      let si := btree_insert acc.1 reference.vram reference.sym_type
      match reference.size with
      | some size =>
        let next_vram := reference.vram + size
        if env.in_vram_range next_vram then
          (btree_insert si next_vram none, btree_insert acc.2 next_vram reference.vram)
        else (si, acc.2)
      | none => (si, acc.2))
    ([(env.vram_start, none)], [])

/-- `DataSection::find_symbols`: the `(cut points, auto_pads)` pair — the
fallback path for unaligned / except-table sections, the word scan
otherwise. -/
def find_symbols (env : DataScanInput) :
    List (Nat × Option SymbolType) × List (Nat × Nat) :=
  if env.vram_start % 4 ≠ 0 || env.section_type = SectionType.GccExceptTable then
    find_symbols_fallback env
  else
    let s := data_scan env
    (s.symbols_info, s.auto_pads)

/-- The symbol-materialization loop of `DataSection::new` (lines 102–137):
symbol `i` spans byte offsets `[Vᵢ − V₀, V_{i+1} − V₀)` (the last one runs to
the end of the bytes) and sits at rom `rom₀ + (Vᵢ − V₀)`.  Each produced
entry is `(vram, start, end, rom)`. -/
def data_section_symbol_bounds (cuts : List (Nat × Option SymbolType))
    (vram rom len : Nat) : List (Nat × Nat × Nat × Nat) :=
  match cuts with
  | [] => []
  | (v, _t) :: rest =>
    let start := v - vram
    let stop :=
      match rest with
      | [] => len
      | (v2, _) :: _ => v2 - vram
    (v, start, stop, rom + start) :: data_section_symbol_bounds rest vram rom len

/-- Pre-existing symbol used by the C2 witness: vram `0x80000010`, declared
size 8, so an addend-tolerant lookup of `0x80000014` lands on it. -/
def c2WitnessSymbol : SymbolMetadata :=
  { SymbolMetadata.new .UserDeclared 0x80000010 with user_declared_size := some 8 }

/-- Segment builder used by the C2 witness. -/
def c2WitnessSegment : SegmentBuilder :=
  ⟨⟨⟨0x1000, 0x1100⟩, ⟨0x80000000, 0x80000100⟩⟩, [c2WitnessSymbol]⟩

/-- The rodata configuration of C8: one `Float32`-typed reference at the
section start followed by four float words (1.0f, 1.0f, 2.0f, 3.0f) and one
zero word; IDO compiler, big endian, string guesser finds nothing. -/
def floatClusterEnv : DataScanInput :=
  { refs := [⟨0x80000000, some SymbolType.Float32, some 16, none, 1⟩],
    ignored_vrams := [],
    compiler := some Compiler.IDO,
    guess := fun _ _ _ => .error (),
    raw_bytes := [0x3F, 0x80, 0, 0, 0x3F, 0x80, 0, 0, 0x40, 0, 0, 0,
      0x40, 0x40, 0, 0, 0, 0, 0, 0],
    vram_start := 0x80000000,
    section_type := SectionType.Rodata,
    endian := Endian.Big }

/-- The data section of C7's counterexample: a user-declared `CString` of
size 6 at the section start of an 8-byte section; its end `V₀ + 6` lies
strictly inside the section but is not word-aligned. -/
def unalignedCStringEnv : DataScanInput :=
  { refs := [⟨0x80000000, some SymbolType.CString, some 6, some 6, 0⟩],
    ignored_vrams := [],
    compiler := none,
    guess := fun _ _ _ => .error (),
    raw_bytes := [0x61, 0x62, 0x63, 0x64, 0x65, 0, 0, 0],
    vram_start := 0x80000000,
    section_type := SectionType.Data,
    endian := Endian.Big }

/-- Scan input backing the C6 witness: a 16-byte zero-filled data section at
`0x80000000` with a single `Word`-typed reference at `0x80000008`, giving the
cut points `0x80000000` and `0x80000008`. -/
def twoCutEnv : DataScanInput :=
  { refs := [⟨0x80000008, some SymbolType.Word, none, none, 0⟩],
    ignored_vrams := [],
    compiler := none,
    guess := fun _ _ _ => .error (),
    raw_bytes := List.replicate 16 0,
    vram_start := 0x80000000,
    section_type := SectionType.Data,
    endian := Endian.Big }

/-- Scan input backing the C7 witness: an 8-byte zero data section whose
first word carries a user-sized (4 bytes) `Word` reference; its end
`0x80000004` is word-aligned and strictly inside the section. -/
def wordPadEnv : DataScanInput :=
  { refs := [⟨0x80000000, some SymbolType.Word, some 4, some 4, 0⟩],
    ignored_vrams := [],
    compiler := none,
    guess := fun _ _ _ => .error (),
    raw_bytes := [0, 0, 0, 0, 0, 0, 0, 0],
    vram_start := 0x80000000,
    section_type := SectionType.Data,
    endian := Endian.Big }

/-- Scan input backing the C10 witness: 4 bytes `"ab\0\0"` with a guesser
that reports a 3-byte string at offset 0, so the scan records a `CString`
cut at the section start. -/
def guessedStringEnv : DataScanInput :=
  { refs := [],
    ignored_vrams := [],
    compiler := none,
    guess := fun _ off _ => if off = 0 then .ok 3 else .error (),
    raw_bytes := [0x61, 0x62, 0, 0],
    vram_start := 0x80000000,
    section_type := SectionType.Data,
    endian := Endian.Big }

/-- The no-reference guarantee carried by a pending string run: whenever
`remaining_string_size` is still positive at the start of word `i`, the
not-yet-consumed remainder of the recorded string's span — which covers at
least the four byte positions of word `i` — holds no reference-table entry.
This is the consequence of the string branch's in-between reference check
that makes the skipped words reference-free. -/
def scan_string_clear (env : DataScanInput) (i : Nat) (s : DataScanState) : Prop :=
  0 < s.remaining_string_size →
    ∀ p : Nat, env.vram_start + 4 * i ≤ p →
      p < env.vram_start + 4 * i +
        next_multiple_of s.remaining_string_size.toNat 4 →
      env.find_reference p false = none

/-! ## The noload (bss) pad synthesis
(`sections/section_noload.rs::SectionNoload::new`, under `src/`) -/

/-- `BTreeSet<Vram>::insert` on a sorted duplicate-free list. -/
def btset_insert : List Nat → Nat → List Nat
  | [], k => [k]
  | k' :: rest, k =>
    if k < k' then k :: k' :: rest
    else if k = k' then k' :: rest
    else k' :: btset_insert rest k

/-- The body of the symbol-collection loop of `SectionNoload::new`
(`section_noload.rs` lines 80–94): record the symbol as a cut point; a
user-declared size additionally yields the cut and the `auto_pads` entry at
`vram + size`, unless that lands exactly on the section end. -/
def noload_step (vram_end : Nat) (acc : List Nat × List (Nat × Nat))
    (sym : SymbolMetadata) : List Nat × List (Nat × Nat) :=
  let si := btset_insert acc.1 sym.vram
  match sym.user_declared_size with
  | some size =>
    let next_vram := sym.vram + size
    if next_vram ≠ vram_end then
      (btset_insert si next_vram, btree_insert acc.2 next_vram sym.vram)
    else (si, acc.2)
  | none => (si, acc.2)

/-- `SectionNoload::new` lines 63–94: the cut-point set (seeded with the
section start) and the `auto_pads` attribution map collected from the
segment's symbols in `[vram_start, vram_end)`.  `find_symbols_range` (§4.2:
ordered iteration over the metadata with `vram` in the range) is modelled by
the order-preserving filter of the segment's symbol list. -/
def section_noload_symbols_info (syms : List SymbolMetadata)
    (vram_start vram_end : Nat) : List Nat × List (Nat × Nat) :=
  (syms.filter (fun m => vram_start ≤ m.vram && m.vram < vram_end)).foldl
    (noload_step vram_end) ([vram_start], [])

/-- Two user-sized `Word` references with coinciding ends (`0x80000000` of
size 8 and `0x80000004` of size 4 both end at `0x80000008`) in a 12-byte
zero-filled data section: the later-scanned reference overwrites the pad
attribution of the earlier one. -/
def overwritePadEnv : DataScanInput :=
  { refs := [⟨0x80000000, some SymbolType.Word, some 8, some 8, 0⟩,
      ⟨0x80000004, some SymbolType.Word, some 4, some 4, 0⟩],
    ignored_vrams := [],
    compiler := none,
    guess := fun _ _ _ => .error (),
    raw_bytes := List.replicate 12 0,
    vram_start := 0x80000000,
    section_type := SectionType.Data,
    endian := Endian.Big }

/-- A user-sized `Word` reference whose address is on the segment's ignore
list: the prior-reference loop skips the position entirely
(`data_section.rs` lines 409–411). -/
def ignoredPadEnv : DataScanInput :=
  { refs := [⟨0x80000000, some SymbolType.Word, some 4, some 4, 0⟩],
    ignored_vrams := [0x80000000],
    compiler := none,
    guess := fun _ _ _ => .error (),
    raw_bytes := List.replicate 8 0,
    vram_start := 0x80000000,
    section_type := SectionType.Data,
    endian := Endian.Big }

/-- A 10-byte data section whose user-sized reference sits at offset 8, in
the 2-byte tail that the `chunks_exact(4)` loop never visits. -/
def tailPadEnv : DataScanInput :=
  { refs := [⟨0x80000008, some SymbolType.Word, some 1, some 1, 0⟩],
    ignored_vrams := [],
    compiler := none,
    guess := fun _ _ _ => .error (),
    raw_bytes := List.replicate 10 0,
    vram_start := 0x80000000,
    section_type := SectionType.Data,
    endian := Endian.Big }

/-- Symbol table of the C7 noload witness: one user-sized (8 bytes)
user-declared symbol at `0x80000000`, placed in a 16-byte bss section. -/
def noloadPadSym : SymbolMetadata :=
  { SymbolMetadata.new .UserDeclared 0x80000000 with user_declared_size := some 8 }

end Spimdisasm

namespace Spimdisasm

/-! ## C1: `RomVramRange` invariants -/

/-- C1 counterexample: `RomVramRange::new` *accepts* a pair whose sizes differ
(`vram` 16 bytes, `rom` 4 bytes) because the source only asserts
`vram.size() >= rom.size()`, so the claimed equal-size invariant is false. -/
theorem c1_new_accepts_unequal_sizes :
    (RomVramRange.new ⟨0x1000, 0x1004⟩ ⟨0x80000000, 0x80000010⟩).isSome = true ∧
    (AddressRange.size ⟨0x80000000, 0x80000010⟩ ≠ AddressRange.size ⟨0x1000, 0x1004⟩) := by
  constructor
  · rfl
  · decide

/-- C1 (amended): `RomVramRange::new` succeeds exactly when
`vram.size ≥ rom.size`, both sizes are non-zero, and the two starts agree
mod 4; every successfully constructed value carries the argument ranges and
hence satisfies those invariants. -/
theorem c1_rom_vram_range_invariants (rom vram : AddressRange) :
    ((RomVramRange.new rom vram).isSome ↔
      vram.size ≥ rom.size ∧ rom.size > 0 ∧ vram.size > 0 ∧
        vram.start % 4 = rom.start % 4) ∧
    (∀ r, RomVramRange.new rom vram = some r →
      r.rom = rom ∧ r.vram = vram ∧ r.vram.size ≥ r.rom.size ∧
        r.rom.size > 0 ∧ r.vram.size > 0 ∧ r.vram.start % 4 = r.rom.start % 4) := by
  constructor
  · unfold RomVramRange.new
    split <;> rename_i h1
    · split <;> rename_i h2
      · split <;> rename_i h3
        · split <;> rename_i h4
          · simp [h1, h2, h3, h4]
          · simp [h4]
        · simp [h3]
      · simp [h2]
    · simp [h1]
  · intro r hr
    unfold RomVramRange.new at hr
    split at hr <;> rename_i h1
    · split at hr <;> rename_i h2
      · split at hr <;> rename_i h3
        · split at hr <;> rename_i h4
          · cases hr
            exact ⟨rfl, rfl, h1, h2, h3, h4⟩
          · cases hr
        · cases hr
      · cases hr
    · cases hr

/-- C1 witness: the amended theorem applied at a concrete accepted pair. -/
theorem c1_rom_vram_range_invariants_witness :
    (⟨0x1000, 0x1008⟩ : AddressRange).size ≥ (⟨0x1000, 0x1008⟩ : AddressRange).size ∧
    ((RomVramRange.new ⟨0x1000, 0x1008⟩ ⟨0x80000000, 0x80000008⟩ = some
        ⟨⟨0x1000, 0x1008⟩, ⟨0x80000000, 0x80000008⟩⟩) ∧
      (⟨⟨0x1000, 0x1008⟩, ⟨0x80000000, 0x80000008⟩⟩ : RomVramRange).vram.size ≥
        (⟨⟨0x1000, 0x1008⟩, ⟨0x80000000, 0x80000008⟩⟩ : RomVramRange).rom.size) := by
  refine ⟨by decide, by decide, ?_⟩
  exact ((c1_rom_vram_range_invariants ⟨0x1000, 0x1008⟩
    ⟨0x80000000, 0x80000008⟩).2 _ (by decide)).2.2.1

/-! ## C5: confident accessors of `ReferencedAddress` -/

/-- C5 counterexample: a `ReferencedAddress` whose size histogram holds the
single entry `None ↦ 1` (one `set_size(None)` vote) makes `size()` return
`None` even though the histogram has exactly one entry, refuting the claimed
"`Some` exactly when the histogram has a single entry". -/
theorem c5_size_none_single_entry :
    ((ReferencedAddress.new 0x80000000).set_size none).sizes.length = 1 ∧
    ((ReferencedAddress.new 0x80000000).set_size none).size = none := by
  decide

/-- C5 (amended): `sym_type()` is `Some t` exactly when the type histogram is
the single entry on `t`; `size()` (resp. `alignment()`) is `Some v` exactly
when its histogram is a single entry whose key is itself `Some v`. -/
theorem c5_confident_accessors (a : ReferencedAddress) :
    (∀ t, a.sym_type = some t ↔ ∃ c, a.sym_type_hist = [(t, c)]) ∧
    (∀ v, a.size = some v ↔ ∃ c, a.sizes = [(some v, c)]) ∧
    (∀ v, a.alignment = some v ↔ ∃ c, a.alignments = [(some v, c)]) := by
  refine ⟨fun t => ?_, fun v => ?_, fun v => ?_⟩
  · unfold ReferencedAddress.sym_type
    match h : a.sym_type_hist with
    | [] => simp [h]
    | [(t', c)] => simp [h]
    | _ :: _ :: _ => simp [h]
  · unfold ReferencedAddress.size
    match h : a.sizes with
    | [] => simp [h]
    | [(k, c)] => cases k <;> simp [h]
    | _ :: _ :: _ => simp [h]
  · unfold ReferencedAddress.alignment
    match h : a.alignments with
    | [] => simp [h]
    | [(k, c)] => cases k <;> simp [h]
    | _ :: _ :: _ => simp [h]

/-! ## C2: overlap policy of `add_user_symbol` -/

/-- C2: whenever the lookup of `add_user_symbol` lands on an existing symbol
whose start vram differs from the requested one, the call succeeds iff the
existing symbol is a trustable function *and* the new type is a label, and
otherwise fails with `Overlap`.  (A label type disables the addend tolerance,
so a different-start hit forces a non-label request and the call always ends
in `Overlap`; both sides of the iff are false.) -/
theorem c2_overlap_policy (seg : SegmentBuilder) (name : String) (vram : Nat)
    (rom : Option Nat) (sym_type : Option SymbolType) (s : SymbolMetadata)
    (hrom : (match rom with
             | some r => !(seg.ranges.in_rom_range r)
             | none => false) = false)
    (hvram : seg.ranges.in_vram_range vram = true)
    (hfind : seg.user_symbols.find?
      (fun m => metadata_hit ⟨!(sym_type.any (fun x => x.is_label))⟩ m vram) = some s)
    (hne : s.vram ≠ vram) :
    ((∃ seg', seg.add_user_symbol name vram rom sym_type = .ok seg') ↔
      (s.is_trustable_function = true ∧ sym_type.any (fun x => x.is_label) = true)) ∧
    (¬(s.is_trustable_function = true ∧ sym_type.any (fun x => x.is_label) = true) →
      seg.add_user_symbol name vram rom sym_type = .error .Overlap) := by
  have hhit := List.find?_some hfind
  have hlabel : sym_type.any (fun x => x.is_label) = false := by
    by_contra h
    rw [Bool.not_eq_false] at h
    rw [h] at hhit
    exact hne (by simpa [metadata_hit] using hhit)
  have hres : seg.add_user_symbol name vram rom sym_type = .error .Overlap := by
    unfold SegmentBuilder.add_user_symbol
    rw [hrom]
    rw [hlabel] at hfind
    simp only [find_mut_or_insert_with, hlabel, hfind]
    simp [hvram, SymbolMetadata.is_trustable_function, hne]
  refine ⟨?_, fun _ => hres⟩
  constructor
  · rintro ⟨seg', hseg'⟩
    rw [hres] at hseg'
    cases hseg'
  · rintro ⟨-, hl⟩
    rw [hlabel] at hl
    cases hl


/-- C2 witness: a concrete mid-symbol request (`Word` at `0x80000014`, inside
the declared 8-byte symbol at `0x80000010`) fails with `Overlap`. -/
theorem c2_overlap_policy_witness :
    c2WitnessSegment.add_user_symbol "other" 0x80000014 none (some SymbolType.Word) =
      .error .Overlap :=
  (c2_overlap_policy c2WitnessSegment "other" 0x80000014 none (some SymbolType.Word)
    c2WitnessSymbol (by decide) (by decide) (by decide) (by decide)).2 (by decide)

/-! ## C3: reference-counter bookkeeping -/

/-- C3: processing a single `branch_targets_outside()` entry registers the
*one* referencing instruction twice — the fresh label's `reference_counter`
ends at 2 — while the parallel `branch_targets()` loop registers it once.
The duplicated `add_reference_function` call (`function_sym.rs` lines
137–146) makes the stored counter diverge from the number of referencing
sites. -/
theorem c3_branch_outside_double_count :
    (((FunctionSym.process_branch_target_outside ⟨[], [], false⟩
        ⟨⟨0x1000, 0x1020⟩, ⟨0x80000000, 0x80000020⟩⟩ 0x1014 0x80000100).find_by_vram
        0x80000100).map (fun m => m.reference_counter) = some 2) ∧
    (((FunctionSym.process_branch_target ⟨[], [], false⟩
        ⟨⟨0x1000, 0x1020⟩, ⟨0x80000000, 0x80000020⟩⟩ 0x1014 0x80000010).find_by_vram
        0x80000010).map (fun m => m.reference_counter) = some 1) := by
  decide

/-! ## C4: MIPS1 double-float realignment -/

/-- C4 counterexample: a lo-instruction whose single observed access is
`FLOAT` at vram `0x80000404` (`v % 8 == 4`) is recorded *unchanged*: no
symbol appears at the aligned-down `0x80000400`, and the symbol at
`0x80000404` keeps `autodetected_type = none` (no `Float64`); only the access
type is stored.  The MIPS1 double-float logic exists in the source only as a
commented-out Python block. -/
theorem c4_float_access_not_realigned :
    FunctionSym.realigned_symbol_vram (some (.FLOAT, false)) 0x80000404 = 0x80000404 ∧
    ((FunctionSym.process_lo_entry ⟨[], [], false⟩
        [(0x80000404, [((.FLOAT, false), 1)])]
        ⟨⟨0x1000, 0x1020⟩, ⟨0x80000000, 0x80000020⟩⟩ 0x1010 0x80000404).find_by_vram
        0x80000400 = none) ∧
    (((FunctionSym.process_lo_entry ⟨[], [], false⟩
        [(0x80000404, [((.FLOAT, false), 1)])]
        ⟨⟨0x1000, 0x1020⟩, ⟨0x80000000, 0x80000020⟩⟩ 0x1010 0x80000404).find_by_vram
        0x80000404).map (fun m => (m.autodetected_type, m.access_type, m.reference_counter))
      = some (none, some (.FLOAT, false), 1)) := by
  decide

theorem find?_map_update (l : List SymbolMetadata) (key k : Nat)
    (f : SymbolMetadata → SymbolMetadata) (hf : ∀ m, (f m).vram = m.vram) :
    (l.map (fun m => if m.vram = key then f m else m)).find? (fun m => m.vram = k) =
      (l.find? (fun m => m.vram = k)).map (fun m => if m.vram = key then f m else m) := by
  induction l with
  | nil => rfl
  | cons m rest ih =>
    by_cases hm : m.vram = k
    · have hm' : ((if m.vram = key then f m else m).vram = k) := by
        split <;> simp [hf, hm]
      simp only [List.map_cons]
      rw [List.find?_cons_of_pos _ (by simpa using hm'),
        List.find?_cons_of_pos _ (by simpa using hm)]
      rfl
    · have hm' : ¬((if m.vram = key then f m else m).vram = k) := by
        split <;> simp [hf, hm]
      simp only [List.map_cons]
      rw [List.find?_cons_of_neg _ (by simpa using hm'),
        List.find?_cons_of_neg _ (by simpa using hm)]
      exact ih

theorem find_by_vram_update_sym (seg : SegmentMetadata) (key k : Nat)
    (f : SymbolMetadata → SymbolMetadata) (hf : ∀ m, (f m).vram = m.vram) :
    (seg.update_sym key f).find_by_vram k =
      (seg.find_by_vram k).map (fun m => if m.vram = key then f m else m) :=
  find?_map_update seg.syms key k f hf

theorem autodetected_type_update_sym (seg : SegmentMetadata) (key k : Nat)
    (f : SymbolMetadata → SymbolMetadata) (hfv : ∀ m, (f m).vram = m.vram)
    (hft : ∀ m, (f m).autodetected_type = m.autodetected_type) :
    ((seg.update_sym key f).find_by_vram k).bind (fun m => m.autodetected_type) =
      (seg.find_by_vram k).bind (fun m => m.autodetected_type) := by
  rw [find_by_vram_update_sym seg key k f hfv]
  cases seg.find_by_vram k with
  | none => rfl
  | some m =>
    by_cases hm : m.vram = key
    · simp [hm, hft]
    · simp [hm]

theorem autodetected_type_add_symbol (seg : SegmentMetadata) (v : Nat)
    (check_addend : Bool) (k : Nat) :
    (((seg.add_symbol v check_addend).1.find_by_vram k).bind
        (fun m => m.autodetected_type)) =
      (seg.find_by_vram k).bind (fun m => m.autodetected_type) := by
  cases h : seg.syms.find? (fun m => metadata_hit ⟨check_addend⟩ m v) with
  | some m => simp [SegmentMetadata.add_symbol, h]
  | none =>
    simp only [SegmentMetadata.add_symbol, h]
    simp only [SegmentMetadata.find_by_vram, List.find?_append]
    cases seg.syms.find? (fun m => m.vram = k) with
    | some m => rfl
    | none =>
      simp only [Option.none_or]
      by_cases hk : (SymbolMetadata.new .Autogenerated v).vram = k
      · simp [List.find?_cons_of_pos, hk, SymbolMetadata.new]
      · rw [List.find?_cons_of_neg _ (by simpa using hk)]
        rfl

/-- C4 (amended): the lo-address realignment of
`process_instr_analysis_result_referenced` aligns down only for
`WORD_LEFT/RIGHT` (to 4) and `DOUBLEWORD_LEFT/RIGHT` (to 8); a `FLOAT`
(`lwc1`/`swc1`) access — odd FPR or not — keeps the reconstructed vram
unchanged, and processing a lo entry never changes any symbol's autodetected
type (in particular no `Float64` is ever assigned there). -/
theorem c4_lo_entry_realignment (v : Nat) (b : Bool) :
    FunctionSym.realigned_symbol_vram (some (.FLOAT, b)) v = v ∧
    FunctionSym.realigned_symbol_vram (some (.DOUBLEFLOAT, b)) v = v ∧
    FunctionSym.realigned_symbol_vram (some (.WORD_LEFT, b)) v = v - v % 4 ∧
    FunctionSym.realigned_symbol_vram (some (.WORD_RIGHT, b)) v = v - v % 4 ∧
    FunctionSym.realigned_symbol_vram (some (.DOUBLEWORD_LEFT, b)) v = v - v % 8 ∧
    FunctionSym.realigned_symbol_vram (some (.DOUBLEWORD_RIGHT, b)) v = v - v % 8 ∧
    FunctionSym.realigned_symbol_vram none v = v ∧
    (∀ (seg : SegmentMetadata)
        (ti : List (Nat × List ((AccessType × Bool) × Nat)))
        (r : RomVramRange) (ir sv k : Nat),
      ((FunctionSym.process_lo_entry seg ti r ir sv).find_by_vram k).bind
          (fun m => m.autodetected_type) =
        (seg.find_by_vram k).bind (fun m => m.autodetected_type)) := by
  refine ⟨rfl, rfl, rfl, rfl, rfl, rfl, rfl, ?_⟩
  intro seg ti r ir sv k
  simp only [FunctionSym.process_lo_entry]
  generalize hsa : FunctionSym.single_sym_access
    ((ti.find? (fun p => p.1 = sv)).map (fun p => p.2)) = sa
  by_cases hig : seg.is_vram_ignored (FunctionSym.realigned_symbol_vram sa sv) = true
  · rw [if_pos hig]
  · rw [if_neg hig]
    have h1 := autodetected_type_add_symbol seg
      (FunctionSym.realigned_symbol_vram sa sv) true k
    generalize hsi : seg.add_symbol (FunctionSym.realigned_symbol_vram sa sv) true = si
    rw [hsi] at h1
    rw [← h1]
    have hrefv : ∀ m : SymbolMetadata,
        (m.add_reference_function r.vram.start ir).vram = m.vram := fun _ => rfl
    have hreft : ∀ m : SymbolMetadata,
        (m.add_reference_function r.vram.start ir).autodetected_type =
          m.autodetected_type := fun _ => rfl
    have h2 := autodetected_type_update_sym si.1 si.2 k
      (fun m => m.add_reference_function r.vram.start ir) hrefv hreft
    generalize hseg1 : si.1.update_sym si.2
      (fun m => m.add_reference_function r.vram.start ir) = seg1
    rw [hseg1] at h2
    rw [← h2]
    cases sa with
    | none =>
      by_cases hu : seg1.is_unknown_segment = true
      · rw [if_pos hu]
      · rw [if_neg hu]
    | some sap =>
      have hacc : ∀ m : SymbolMetadata,
          (m.set_access_type_if_unset sap).vram = m.vram := by
        intro m
        unfold SymbolMetadata.set_access_type_if_unset
        split <;> rfl
      have hacct : ∀ m : SymbolMetadata,
          (m.set_access_type_if_unset sap).autodetected_type = m.autodetected_type := by
        intro m
        unfold SymbolMetadata.set_access_type_if_unset
        split <;> rfl
      by_cases hu : seg1.is_unknown_segment = true
      · rw [if_pos hu]
        obtain ⟨a, ub⟩ := sap
        cases a <;>
          rw [autodetected_type_update_sym _ si.2 k _ hacc hacct] <;>
          try exact autodetected_type_update_sym seg1 si.2 k _ (fun _ => rfl) (fun _ => rfl)
      · rw [if_neg hu]
        rw [autodetected_type_update_sym _ si.2 k _ hacc hacct]

/-! ## C8: float clusters and the late-rodata trigger -/


/-- C8: scanning four `Float32` words followed by one zero word (all
attributed to the `Float32` run of the reference at the section start) ends
with `float_counter = 5` and `float_padding_counter = 1`, and the scan ends
with the late-rodata state unset — `reached_late_rodata` never fires and
`maybe_reached_late_rodata` is false — because at the end of the run the
trigger `float_padding_counter + 1 == float_counter` does not hold
(`1 + 1 ≠ 5`). -/
theorem c8_float_cluster_not_late_rodata :
    (data_scan floatClusterEnv).float_counter = 5 ∧
    (data_scan floatClusterEnv).float_padding_counter = 1 ∧
    (data_scan floatClusterEnv).maybe_reached_late_rodata = false ∧
    (data_scan floatClusterEnv).reached_late_rodata = false ∧
    (data_scan floatClusterEnv).float_padding_counter + 1 ≠
      (data_scan floatClusterEnv).float_counter := by
  decide

/-! ## C7: auto-pad synthesis for user-sized symbols -/


/-- C7 counterexample — four concrete runs of the embedded
`DataSection::find_symbols` on which the claim as stated fails:
(1) `unalignedCStringEnv`: a user-sized `CString` whose end `0x80000006` is
strictly inside the section gets neither a cut point nor an `auto_pads`
entry — the source skips the pad when a `CString`'s end is not 4-byte-aligned
(`data_section.rs` lines 421–425);
(2) `overwritePadEnv`: two user-sized references (`0x80000000` of size 8,
`0x80000004` of size 4) end at the same address `0x80000008`; the final
`auto_pads` entry there — the value `DataSection::new` consumes as
`auto_created_pad_by` — is the later-scanned `0x80000004`, not `0x80000000`;
(3) `ignoredPadEnv`: a user-sized reference at a vram-ignored address is
skipped by the prior-reference loop (`data_section.rs` lines 409–411) and
produces neither cut nor pad;
(4) `tailPadEnv`: a user-sized reference at offset 8 of a 10-byte section
falls in the tail that `chunks_exact(4)` never visits, so no cut or pad is
produced even though its end `0x80000009` is strictly inside the section. -/
theorem c7_pad_claim_counterexamples :
    (((unalignedCStringEnv.find_reference 0x80000000 false).map
        (fun r => (r.sym_type, r.user_declared_size)) =
      some (some SymbolType.CString, some 6)) ∧
     unalignedCStringEnv.in_vram_range (0x80000000 + 6) = true ∧
     btree_get? (find_symbols unalignedCStringEnv).1 (0x80000000 + 6) = none ∧
     btree_get? (find_symbols unalignedCStringEnv).2 (0x80000000 + 6) = none) ∧
    (((overwritePadEnv.find_reference 0x80000000 false).map
        (fun r => (r.vram, r.sym_type, r.user_declared_size)) =
      some (0x80000000, some SymbolType.Word, some 8)) ∧
     overwritePadEnv.in_vram_range (0x80000000 + 8) = true ∧
     btree_get? (find_symbols overwritePadEnv).2 (0x80000000 + 8) =
       some 0x80000004 ∧
     btree_get? (find_symbols overwritePadEnv).2 (0x80000000 + 8) ≠
       some 0x80000000) ∧
    (((ignoredPadEnv.find_reference 0x80000000 false).map
        (fun r => (r.sym_type, r.user_declared_size)) =
      some (some SymbolType.Word, some 4)) ∧
     ignoredPadEnv.in_vram_range (0x80000000 + 4) = true ∧
     btree_get? (find_symbols ignoredPadEnv).1 (0x80000000 + 4) = none ∧
     btree_get? (find_symbols ignoredPadEnv).2 (0x80000000 + 4) = none) ∧
    (((tailPadEnv.find_reference 0x80000008 false).map
        (fun r => (r.sym_type, r.user_declared_size)) =
      some (some SymbolType.Word, some 1)) ∧
     tailPadEnv.in_vram_range (0x80000008 + 1) = true ∧
     btree_get? (find_symbols tailPadEnv).1 (0x80000008 + 1) = none ∧
     btree_get? (find_symbols tailPadEnv).2 (0x80000008 + 1) = none) := by
  decide

/-! ## C6: data-section symbol tiling -/

theorem data_section_symbol_bounds_chain (cuts : List (Nat × Option SymbolType))
    (vram rom len : Nat) :
    List.Chain' (fun b1 b2 => b1.2.2.1 = b2.2.1)
      (data_section_symbol_bounds cuts vram rom len) := by
  induction cuts with
  | nil => simp [data_section_symbol_bounds]
  | cons p rest ih =>
    obtain ⟨v, t⟩ := p
    cases rest with
    | nil => simp [data_section_symbol_bounds]
    | cons p2 r2 =>
      obtain ⟨v2, t2⟩ := p2
      simp only [data_section_symbol_bounds]
      rw [List.chain'_cons']
      refine ⟨?_, ?_⟩
      · intro b hb
        simp at hb
        simp [← hb]
      · exact ih

theorem data_section_symbol_bounds_last (cuts : List (Nat × Option SymbolType))
    (vram rom len : Nat) :
    ∀ b, (data_section_symbol_bounds cuts vram rom len).getLast? = some b →
      b.2.2.1 = len := by
  induction cuts with
  | nil => simp [data_section_symbol_bounds]
  | cons p rest ih =>
    obtain ⟨v, t⟩ := p
    cases rest with
    | nil =>
      intro b hb
      simp [data_section_symbol_bounds] at hb
      simp [← hb]
    | cons p2 r2 =>
      obtain ⟨v2, t2⟩ := p2
      intro b hb
      apply ih
      simp only [data_section_symbol_bounds] at hb ⊢
      rwa [List.getLast?_cons_cons] at hb

theorem data_section_symbol_bounds_mem (cuts : List (Nat × Option SymbolType))
    (vram rom len : Nat)
    (hsort : List.Pairwise (· < ·) (cuts.map Prod.fst))
    (hrange : ∀ v ∈ cuts.map Prod.fst, vram ≤ v ∧ v < vram + len) :
    ∀ b ∈ data_section_symbol_bounds cuts vram rom len,
      b.2.1 < b.2.2.1 ∧ b.2.1 = b.1 - vram ∧ b.2.2.2 = rom + (b.1 - vram) := by
  induction cuts with
  | nil => simp [data_section_symbol_bounds]
  | cons p rest ih =>
    obtain ⟨v, t⟩ := p
    intro b hb
    simp only [data_section_symbol_bounds] at hb
    have hv := hrange v (by simp)
    rcases List.mem_cons.mp hb with hhd | htl
    · subst hhd
      refine ⟨?_, rfl, rfl⟩
      cases rest with
      | nil => simp; omega
      | cons p2 r2 =>
        obtain ⟨v2, t2⟩ := p2
        have hvv2 : v < v2 := by
          rw [List.map_cons] at hsort
          exact (List.pairwise_cons.mp hsort).1 v2 (by simp)
        have hv2 := hrange v2 (by simp)
        simp
        omega
    · refine ih ?_ ?_ b htl
      · rw [List.map_cons] at hsort
        exact (List.pairwise_cons.mp hsort).2
      · intro v' hv'
        refine hrange v' ?_
        rw [List.map_cons]
        exact List.mem_cons_of_mem _ hv'

theorem data_section_symbol_bounds_cover (cuts : List (Nat × Option SymbolType))
    (vram rom len : Nat)
    (hrange : ∀ v ∈ cuts.map Prod.fst, v < vram + len) :
    ∀ off v0 t0 rest, cuts = (v0, t0) :: rest → v0 - vram ≤ off → off < len →
      ∃ b ∈ data_section_symbol_bounds cuts vram rom len,
        b.2.1 ≤ off ∧ off < b.2.2.1 := by
  induction cuts with
  | nil => intro off v0 t0 rest h; cases h
  | cons p rest ih =>
    intro off v0 t0 rest' hp hoff hlen
    have hv0 : p = (v0, t0) := ((List.cons.injEq ..).mp hp).1
    subst hv0
    cases rest with
    | nil =>
      refine ⟨(v0, v0 - vram, len, rom + (v0 - vram)), ?_, hoff, hlen⟩
      simp [data_section_symbol_bounds]
    | cons p2 r2 =>
      obtain ⟨v2, t2⟩ := p2
      by_cases hsplit : off < v2 - vram
      · refine ⟨(v0, v0 - vram, v2 - vram, rom + (v0 - vram)), ?_, hoff, hsplit⟩
        simp only [data_section_symbol_bounds]
        simp
      · obtain ⟨b, hbmem, hb1, hb2⟩ := ih
          (fun v' hv' => hrange v' (by rw [List.map_cons]; exact List.mem_cons_of_mem _ hv'))
          off v2 t2 r2 rfl (by omega) hlen
        refine ⟨b, ?_, hb1, hb2⟩
        simp only [data_section_symbol_bounds]
        exact List.mem_cons_of_mem _ hbmem

/-- C6: for a data section whose cut points are strictly increasing, all
inside `[vram, vram + len)`, and include the section start `vram` (as
`find_symbols` guarantees), the materialization loop of `DataSection::new`
tiles the byte range exactly: the first cut is the section start and its
symbol starts at offset 0, each symbol ends where the next begins, the last
symbol ends at `len`, every symbol is non-empty with
`rom = rom₀ + (vram_i − vram)`, and every byte offset of the section is
covered by some symbol. -/
theorem c6_data_section_tiling (cuts : List (Nat × Option SymbolType))
    (vram rom len : Nat)
    (hmem : vram ∈ cuts.map Prod.fst)
    (hsort : List.Pairwise (· < ·) (cuts.map Prod.fst))
    (hrange : ∀ v ∈ cuts.map Prod.fst, vram ≤ v ∧ v < vram + len) :
    (cuts.head?.map Prod.fst = some vram) ∧
    ((data_section_symbol_bounds cuts vram rom len).head?.map (fun b => b.2.1) =
      some 0) ∧
    List.Chain' (fun b1 b2 => b1.2.2.1 = b2.2.1)
      (data_section_symbol_bounds cuts vram rom len) ∧
    (∀ b, (data_section_symbol_bounds cuts vram rom len).getLast? = some b →
      b.2.2.1 = len) ∧
    (∀ b ∈ data_section_symbol_bounds cuts vram rom len,
      b.2.1 < b.2.2.1 ∧ b.2.1 = b.1 - vram ∧ b.2.2.2 = rom + (b.1 - vram)) ∧
    (∀ off < len, ∃ b ∈ data_section_symbol_bounds cuts vram rom len,
      b.2.1 ≤ off ∧ off < b.2.2.1) := by
  obtain ⟨p, rest, hcuts⟩ : ∃ p rest, cuts = p :: rest := by
    cases cuts with
    | nil => simp at hmem
    | cons p rest => exact ⟨p, rest, rfl⟩
  obtain ⟨v0, t0⟩ := p
  have hhead : v0 = vram := by
    subst hcuts
    rw [List.map_cons] at hmem hsort
    rcases List.mem_cons.mp hmem with h | h
    · omega
    · have := (List.pairwise_cons.mp hsort).1 vram h
      have := (hrange v0 (by simp)).1
      omega
  subst hhead
  refine ⟨?_, ?_, data_section_symbol_bounds_chain cuts v0 rom len,
    data_section_symbol_bounds_last cuts v0 rom len,
    data_section_symbol_bounds_mem cuts v0 rom len hsort hrange, ?_⟩
  · rw [hcuts]; rfl
  · rw [hcuts]
    simp only [data_section_symbol_bounds]
    simp
  · intro off hoff
    exact data_section_symbol_bounds_cover cuts v0 rom len
      (fun v' hv' => (hrange v' hv').2) off v0 t0 rest hcuts (by omega) hoff


/-- C6 witness: the tiling theorem applied to the actual `find_symbols`
output of `twoCutEnv` (cuts `0x80000000 < 0x80000008`, 16 bytes,
rom `0x1000`). -/
theorem c6_data_section_tiling_witness :
    (((find_symbols twoCutEnv).1.head?.map Prod.fst = some 0x80000000) ∧
      ((data_section_symbol_bounds (find_symbols twoCutEnv).1 0x80000000 0x1000
        16).head?.map (fun b => b.2.1) = some 0) ∧
      List.Chain' (fun b1 b2 => b1.2.2.1 = b2.2.1)
        (data_section_symbol_bounds (find_symbols twoCutEnv).1 0x80000000 0x1000 16) ∧
      (∀ b, (data_section_symbol_bounds (find_symbols twoCutEnv).1 0x80000000 0x1000
        16).getLast? = some b → b.2.2.1 = 16) ∧
      (∀ b ∈ data_section_symbol_bounds (find_symbols twoCutEnv).1 0x80000000 0x1000 16,
        b.2.1 < b.2.2.1 ∧ b.2.1 = b.1 - 0x80000000 ∧
          b.2.2.2 = 0x1000 + (b.1 - 0x80000000)) ∧
      (∀ off < 16, ∃ b ∈ data_section_symbol_bounds (find_symbols twoCutEnv).1
        0x80000000 0x1000 16, b.2.1 ≤ off ∧ off < b.2.2.1)) :=
  c6_data_section_tiling (find_symbols twoCutEnv).1 0x80000000 0x1000 16
    (by decide) (by decide) (by decide)

/-! ## Map lemmas for the scan state -/

theorem btree_get?_insert_self {α : Type} (m : List (Nat × α)) (k : Nat) (v : α) :
    btree_get? (btree_insert m k v) k = some v := by
  induction m with
  | nil => simp [btree_insert, btree_get?]
  | cons p rest ih =>
    obtain ⟨k0, v0⟩ := p
    simp only [btree_insert]
    split
    · simp [btree_get?]
    · split
      · simp [btree_get?]
      · rename_i h1 h2
        simp only [btree_get?]
        rw [if_neg (by omega), ih]

theorem btree_get?_insert_ne {α : Type} (m : List (Nat × α)) (k k' : Nat) (v : α)
    (h : k' ≠ k) : btree_get? (btree_insert m k v) k' = btree_get? m k' := by
  induction m with
  | nil => simp [btree_insert, btree_get?, h]
  | cons p rest ih =>
    obtain ⟨k0, v0⟩ := p
    simp only [btree_insert]
    split
    · simp only [btree_get?]
      rw [if_neg h]
    · split
      · rename_i h1 h2
        simp only [btree_get?]
        rw [if_neg h, if_neg (by omega)]
      · simp only [btree_get?]
        split
        · rfl
        · exact ih

theorem btree_get?_insert {α : Type} (m : List (Nat × α)) (k k' : Nat) (v : α) :
    btree_get? (btree_insert m k v) k' =
      if k' = k then some v else btree_get? m k' := by
  by_cases h : k' = k
  · subst h
    rw [if_pos rfl, btree_get?_insert_self]
  · rw [if_neg h, btree_get?_insert_ne _ _ _ _ h]

theorem btree_insert_isSome {α : Type} (m : List (Nat × α)) (k k' : Nat) (v : α) :
    (btree_get? (btree_insert m k v) k').isSome = true ↔
      (k' = k ∨ (btree_get? m k').isSome = true) := by
  rw [btree_get?_insert]
  split
  · simp_all
  · simp_all

theorem btree_entry_or_default_isSome (m : List (Nat × Option SymbolType))
    (k k' : Nat) :
    (btree_get? (btree_entry_or_default m k) k').isSome = true ↔
      (k' = k ∨ (btree_get? m k').isSome = true) := by
  unfold btree_entry_or_default
  split
  · rename_i x hx
    constructor
    · exact fun h => Or.inr h
    · rintro (rfl | h)
      · simp [hx]
      · exact h
  · exact btree_insert_isSome m k k' none

theorem btree_entry_or_default_value (m : List (Nat × Option SymbolType))
    (k k' : Nat) (x : Option SymbolType)
    (h : btree_get? (btree_entry_or_default m k) k' = some x) :
    btree_get? m k' = some x ∨ (k' = k ∧ x = none) := by
  unfold btree_entry_or_default at h
  split at h
  · exact Or.inl h
  · rw [btree_get?_insert] at h
    split at h
    · rename_i hk
      cases h
      exact Or.inr ⟨hk, rfl⟩
    · exact Or.inl h

/-! Per-block facts about the scan state: which maps each block can touch,
monotonicity of cut-point membership, and the bound on auto-pad keys. -/

theorem float_track_symbols_info (env : DataScanInput) (s : DataScanState)
    (a : Option ReferenceWrapper) (ct : Option SymbolType) (cv lo w : Nat) :
    (float_track env s a ct cv lo w).symbols_info = s.symbols_info := by
  simp only [float_track]
  repeat' split
  all_goals rfl

theorem float_track_auto_pads (env : DataScanInput) (s : DataScanState)
    (a : Option ReferenceWrapper) (ct : Option SymbolType) (cv lo w : Nat) :
    (float_track env s a ct cv lo w).auto_pads = s.auto_pads := by
  simp only [float_track]
  repeat' split
  all_goals rfl

theorem late_rodata_trailer_symbols_info (env : DataScanInput) (s : DataScanState) :
    (late_rodata_trailer env s).symbols_info = s.symbols_info := by
  simp only [late_rodata_trailer]
  repeat' split
  all_goals rfl

theorem late_rodata_trailer_auto_pads (env : DataScanInput) (s : DataScanState) :
    (late_rodata_trailer env s).auto_pads = s.auto_pads := by
  simp only [late_rodata_trailer]
  repeat' split
  all_goals rfl

theorem pointer_search_auto_pads (env : DataScanInput) (s : DataScanState)
    (ct : Option SymbolType) (w : Nat) :
    (pointer_search env s ct w).auto_pads = s.auto_pads := by
  simp only [pointer_search]
  repeat' split
  all_goals rfl

theorem pointer_search_cuts_mono (env : DataScanInput) (s : DataScanState)
    (ct : Option SymbolType) (w k : Nat)
    (h : (btree_get? s.symbols_info k).isSome = true) :
    (btree_get? (pointer_search env s ct w).symbols_info k).isSome = true := by
  simp only [pointer_search]
  repeat' split
  all_goals
    first
    | exact h
    | exact (btree_entry_or_default_isSome _ _ _).mpr (Or.inr h)

theorem string_guess_cuts_mono (env : DataScanInput) (s : DataScanState)
    (cv lo w k : Nat)
    (h : (btree_get? s.symbols_info k).isSome = true) :
    (btree_get? (string_guess env s cv lo w).symbols_info k).isSome = true := by
  simp only [string_guess]
  repeat' split
  all_goals
    first
    | exact h
    | exact (btree_insert_isSome _ _ _ _).mpr (Or.inr h)
    | exact (btree_entry_or_default_isSome _ _ _).mpr
        (Or.inr ((btree_insert_isSome _ _ _ _).mpr (Or.inr h)))

theorem prior_reference_step_cuts_mono (env : DataScanInput) (s : DataScanState)
    (xv : Nat) (x : Option ReferenceWrapper) (k : Nat)
    (h : (btree_get? s.symbols_info k).isSome = true) :
    (btree_get? (prior_reference_step env s xv x).symbols_info k).isSome = true := by
  simp only [prior_reference_step]
  repeat' split
  all_goals
    first
    | exact h
    | exact (btree_entry_or_default_isSome _ _ _).mpr (Or.inr h)
    | exact (btree_entry_or_default_isSome _ _ _).mpr
        (Or.inr ((btree_entry_or_default_isSome _ _ _).mpr (Or.inr h)))

theorem data_scan_step_cuts_mono (env : DataScanInput) (s : DataScanState)
    (i k : Nat) (h : (btree_get? s.symbols_info k).isSome = true) :
    (btree_get? (data_scan_step env s i).symbols_info k).isSome = true := by
  simp only [data_scan_step]
  split
  · rw [late_rodata_trailer_symbols_info]
    apply prior_reference_step_cuts_mono
    apply prior_reference_step_cuts_mono
    apply prior_reference_step_cuts_mono
    apply prior_reference_step_cuts_mono
    split
    · apply string_guess_cuts_mono
      apply pointer_search_cuts_mono
      rw [float_track_symbols_info]
      exact h
    · exact h
  · rw [late_rodata_trailer_symbols_info]
    exact h

theorem data_scan_steps_cuts_mono (env : DataScanInput) (k : Nat)
    (l : List Nat) :
    ∀ s : DataScanState, (btree_get? s.symbols_info k).isSome = true →
      (btree_get? ((l.foldl (data_scan_step env) s)).symbols_info k).isSome = true := by
  induction l with
  | nil => exact fun s h => h
  | cons i rest ih =>
    intro s h
    rw [List.foldl_cons]
    exact ih _ (data_scan_step_cuts_mono env s i k h)

theorem in_vram_range_lt (env : DataScanInput) (v : Nat)
    (h : env.in_vram_range v = true) : v < env.vram_end := by
  simp [DataScanInput.in_vram_range] at h
  exact h.2

/-- Processing a found reference with a user-declared size whose end lies
inside the section (and is word-aligned if the reference is a `CString`)
records both the cut point and the `auto_pads` entry at `vram + size`. -/
theorem prior_reference_step_pad (env : DataScanInput) (s : DataScanState)
    (xv : Nat) (r : ReferenceWrapper) (sz : Nat)
    (hnig : env.is_vram_ignored xv = false)
    (hsz : r.user_declared_size = some sz)
    (hin : env.in_vram_range (r.vram + sz) = true)
    (hcs : r.sym_type = some SymbolType.CString → (r.vram + sz) % 4 = 0) :
    (btree_get? (prior_reference_step env s xv (some r)).symbols_info
      (r.vram + sz)).isSome = true ∧
    btree_get? (prior_reference_step env s xv (some r)).auto_pads (r.vram + sz) =
      some r.vram := by
  have hallow : (match r.sym_type with
      | some SymbolType.CString => decide ((r.vram + sz) % 4 = 0)
      | _ => true) = true := by
    rcases hst : r.sym_type with _ | t
    · rfl
    · cases t <;> simp_all
  simp only [prior_reference_step, hnig, Bool.false_eq_true, if_false, hsz]
  rw [if_pos hin, if_pos hallow]
  constructor
  · exact (btree_entry_or_default_isSome _ _ _).mpr (Or.inl rfl)
  · exact btree_get?_insert_self _ _ _

theorem prior_reference_step_pads_sub (env : DataScanInput) (s : DataScanState)
    (xv : Nat) (x : Option ReferenceWrapper) (k : Nat)
    (hk : (btree_get? (prior_reference_step env s xv x).auto_pads k).isSome = true) :
    (btree_get? s.auto_pads k).isSome = true ∨ env.in_vram_range k = true := by
  revert hk
  simp only [prior_reference_step]
  repeat' split
  all_goals intro hk
  all_goals
    first
    | exact Or.inl hk
    | (rcases (btree_insert_isSome _ _ _ _).mp hk with rfl | hk2
       · right; simp_all
       · exact Or.inl hk2)

theorem string_guess_pads_sub (env : DataScanInput) (s : DataScanState)
    (cv lo w k : Nat)
    (hk : (btree_get? (string_guess env s cv lo w).auto_pads k).isSome = true) :
    (btree_get? s.auto_pads k).isSome = true ∨ k = cv ∨
      env.in_vram_range k = true := by
  revert hk
  simp only [string_guess]
  repeat' split
  all_goals intro hk
  all_goals
    first
    | exact Or.inl hk
    | (rcases (btree_insert_isSome _ _ _ _).mp hk with rfl | hk2
       · first
         | exact Or.inr (Or.inl rfl)
         | (right; right; simp_all)
       · first
         | exact Or.inl hk2
         | (rcases (btree_insert_isSome _ _ _ _).mp hk2 with rfl | hk3
            · first
              | exact Or.inr (Or.inl rfl)
              | (right; right; simp_all)
            · exact Or.inl hk3))

theorem data_scan_step_pads_sub (env : DataScanInput) (s : DataScanState)
    (i k : Nat)
    (hk : (btree_get? (data_scan_step env s i).auto_pads k).isSome = true) :
    (btree_get? s.auto_pads k).isSome = true ∨ k = env.vram_start + 4 * i ∨
      env.in_vram_range k = true := by
  simp only [data_scan_step] at hk
  rw [late_rodata_trailer_auto_pads] at hk
  split at hk
  · rcases prior_reference_step_pads_sub _ _ _ _ k hk with hk | hin
    · rcases prior_reference_step_pads_sub _ _ _ _ k hk with hk | hin
      · rcases prior_reference_step_pads_sub _ _ _ _ k hk with hk | hin
        · rcases prior_reference_step_pads_sub _ _ _ _ k hk with hk | hin
          · split at hk
            · rcases string_guess_pads_sub _ _ _ _ _ k hk with hk | hcv | hin
              · rw [pointer_search_auto_pads, float_track_auto_pads] at hk
                exact Or.inl hk
              · exact Or.inr (Or.inl hcv)
              · exact Or.inr (Or.inr hin)
            · exact Or.inl hk
          · exact Or.inr (Or.inr hin)
        · exact Or.inr (Or.inr hin)
      · exact Or.inr (Or.inr hin)
    · exact Or.inr (Or.inr hin)
  · exact Or.inl hk

/-- Every key of the scan's `auto_pads` map lies strictly below the section
end: the scan never synthesizes a pad at (or past) `section.end`. -/
theorem data_scan_pads_bound (env : DataScanInput) :
    ∀ k, (btree_get? (data_scan env).auto_pads k).isSome = true →
      k < env.vram_end := by
  suffices hs : ∀ l : List Nat, (∀ i ∈ l, 4 * i + 4 ≤ env.raw_bytes.length) →
      ∀ s : DataScanState,
        (∀ k, (btree_get? s.auto_pads k).isSome = true → k < env.vram_end) →
        ∀ k, (btree_get? ((l.foldl (data_scan_step env) s)).auto_pads k).isSome = true →
          k < env.vram_end by
    refine hs (List.range _) ?_ _ ?_
    · intro i hi
      rw [List.mem_range] at hi
      have h1 : i + 1 ≤ env.raw_bytes.length / 4 := hi
      have h2 : 4 * (i + 1) ≤ 4 * (env.raw_bytes.length / 4) :=
        Nat.mul_le_mul_left 4 h1
      have h3 := Nat.div_mul_le_self env.raw_bytes.length 4
      omega
    · intro k hk
      simp [DataScanState.init, btree_get?] at hk
  intro l
  induction l with
  | nil => exact fun _ s hb => hb
  | cons i rest ih =>
    intro hmem s hb
    rw [List.foldl_cons]
    refine ih (fun j hj => hmem j (List.mem_cons_of_mem _ hj)) _ ?_
    intro k hk
    rcases data_scan_step_pads_sub env s i k hk with hk | rfl | hin
    · exact hb k hk
    · have h4 := hmem i (List.mem_cons_self ..)
      simp [DataScanInput.vram_end]
      omega
    · exact in_vram_range_lt env k hin

/-! CString-valued cut points can only originate in the string-guess branch;
every other writer stores `none`. -/

theorem pointer_search_cstring (env : DataScanInput) (s : DataScanState)
    (ct : Option SymbolType) (w v : Nat)
    (h : btree_get? (pointer_search env s ct w).symbols_info v =
      some (some SymbolType.CString)) :
    btree_get? s.symbols_info v = some (some SymbolType.CString) := by
  revert h
  simp only [pointer_search]
  repeat' split
  all_goals intro h
  all_goals
    first
    | exact h
    | (rcases btree_entry_or_default_value _ _ _ _ h with h2 | ⟨rfl, hx⟩
       · exact h2
       · exact Option.noConfusion hx)

theorem prior_reference_step_cstring (env : DataScanInput) (s : DataScanState)
    (xv : Nat) (x : Option ReferenceWrapper) (v : Nat)
    (h : btree_get? (prior_reference_step env s xv x).symbols_info v =
      some (some SymbolType.CString)) :
    btree_get? s.symbols_info v = some (some SymbolType.CString) := by
  revert h
  simp only [prior_reference_step]
  repeat' split
  all_goals intro h
  all_goals
    first
    | exact h
    | (rcases btree_entry_or_default_value _ _ _ _ h with h2 | ⟨rfl, hx⟩
       · first
         | exact h2
         | (rcases btree_entry_or_default_value _ _ _ _ h2 with h3 | ⟨rfl, hx3⟩
            · exact h3
            · exact Option.noConfusion hx3)
       · exact Option.noConfusion hx)

theorem string_guess_cstring (env : DataScanInput) (s : DataScanState)
    (cv lo w v : Nat) (hcv_lo : cv = env.vram_start + lo)
    (h : btree_get? (string_guess env s cv lo w).symbols_info v =
      some (some SymbolType.CString)) :
    btree_get? s.symbols_info v = some (some SymbolType.CString) ∨
    (∃ (late : Bool) (n : Nat),
      env.guess (env.find_reference v true) (v - env.vram_start) late = .ok n ∧
      env.find_references_range (v + 1) (v + next_multiple_of n 4) = []) := by
  revert h
  simp only [string_guess]
  split
  case isFalse => exact fun h => Or.inl h
  case isTrue hguard =>
  split
  case isFalse => exact fun h => Or.inl h
  case isTrue hcur =>
  split
  case h_2 => exact fun h => Or.inl h
  case h_1 str_size hguess =>
  split
  case isFalse => exact fun h => Or.inl h
  case isTrue hbetween =>
  intro h
  have hmain : btree_get? (btree_insert s.symbols_info cv
      (some SymbolType.CString)) v = some (some SymbolType.CString) →
      btree_get? s.symbols_info v = some (some SymbolType.CString) ∨
      (∃ (late : Bool) (n : Nat),
        env.guess (env.find_reference v true) (v - env.vram_start) late = .ok n ∧
        env.find_references_range (v + 1) (v + next_multiple_of n 4) = []) := by
    intro h2
    rw [btree_get?_insert] at h2
    split at h2
    · rename_i hv
      subst hv
      refine Or.inr ⟨s.maybe_reached_late_rodata || s.reached_late_rodata,
        str_size, ?_, ?_⟩
      · have harith : v - env.vram_start = lo := by omega
        rw [harith]
        exact hguess
      · exact hbetween
    · exact Or.inl h2
  split at h
  · rcases btree_entry_or_default_value _ _ _ _ h with h2 | ⟨rfl, hx⟩
    · exact hmain h2
    · exact Option.noConfusion hx
  · exact hmain h

theorem data_scan_step_cstring (env : DataScanInput) (s : DataScanState)
    (i v : Nat)
    (h : btree_get? (data_scan_step env s i).symbols_info v =
      some (some SymbolType.CString)) :
    btree_get? s.symbols_info v = some (some SymbolType.CString) ∨
    (∃ (late : Bool) (n : Nat),
      env.guess (env.find_reference v true) (v - env.vram_start) late = .ok n ∧
      env.find_references_range (v + 1) (v + next_multiple_of n 4) = []) := by
  simp only [data_scan_step] at h
  rw [late_rodata_trailer_symbols_info] at h
  split at h
  · have h1 := prior_reference_step_cstring _ _ _ _ _ h
    have h2 := prior_reference_step_cstring _ _ _ _ _ h1
    have h3 := prior_reference_step_cstring _ _ _ _ _ h2
    have h4 := prior_reference_step_cstring _ _ _ _ _ h3
    split at h4
    · rcases string_guess_cstring env _ _ _ _ v rfl h4 with h5 | hq
      · have h6 := pointer_search_cstring _ _ _ _ _ h5
        rw [float_track_symbols_info] at h6
        exact Or.inl h6
      · exact Or.inr hq
    · exact Or.inl h4
  · exact Or.inl h

/-! ## C10: string cut points exclude inner references -/

/-- C10: every `CString` cut point `v` recorded by the word-aligned scan was
vetted by the in-between check — the guesser returned some size `n` for `v`,
and no already-referenced address exists in the open interval
`(v, v + round4(n))` (the half-open range `[v + 1, v + round4(n))` of the
source). -/
theorem c10_cstring_cut_no_inner_reference (env : DataScanInput) (v : Nat)
    (h : btree_get? (data_scan env).symbols_info v =
      some (some SymbolType.CString)) :
    ∃ (late : Bool) (n : Nat),
      env.guess (env.find_reference v true) (v - env.vram_start) late = .ok n ∧
      env.find_references_range (v + 1) (v + next_multiple_of n 4) = [] := by
  suffices hs : ∀ l : List Nat, ∀ s : DataScanState,
      (btree_get? s.symbols_info v = some (some SymbolType.CString) →
        ∃ (late : Bool) (n : Nat),
          env.guess (env.find_reference v true) (v - env.vram_start) late = .ok n ∧
          env.find_references_range (v + 1) (v + next_multiple_of n 4) = []) →
      btree_get? ((l.foldl (data_scan_step env) s)).symbols_info v =
        some (some SymbolType.CString) →
      ∃ (late : Bool) (n : Nat),
        env.guess (env.find_reference v true) (v - env.vram_start) late = .ok n ∧
        env.find_references_range (v + 1) (v + next_multiple_of n 4) = [] by
    refine hs (List.range _) _ ?_ h
    intro h0
    simp [DataScanState.init, btree_get?] at h0
  intro l
  induction l with
  | nil => exact fun s hP h1 => hP h1
  | cons i rest ih =>
    intro s hP h1
    rw [List.foldl_cons] at h1
    refine ih _ ?_ h1
    intro h2
    rcases data_scan_step_cstring env s i v h2 with h3 | hq
    · exact hP h3
    · exact hq

/-- C10 witness: the scan of `guessedStringEnv` records a `CString` at
`0x80000000`, so the theorem yields the guesser call and the empty in-between
range for it. -/
theorem c10_cstring_cut_no_inner_reference_witness :
    ∃ (late : Bool) (n : Nat),
      guessedStringEnv.guess (guessedStringEnv.find_reference 0x80000000 true)
        (0x80000000 - guessedStringEnv.vram_start) late = .ok n ∧
      guessedStringEnv.find_references_range (0x80000000 + 1)
        (0x80000000 + next_multiple_of n 4) = [] :=
  c10_cstring_cut_no_inner_reference guessedStringEnv 0x80000000 (by decide)

/-! ## C7: auto-pad synthesis (amended general theorem) -/

theorem data_scan_step_adds_pad_cut (env : DataScanInput) (s : DataScanState)
    (i : Nat) (r : ReferenceWrapper) (pos sz : Nat)
    (hactive : s.remaining_string_size ≤ 0)
    (hpos : pos = env.vram_start + 4 * i ∨ pos = env.vram_start + 4 * i + 1 ∨
      pos = env.vram_start + 4 * i + 2 ∨ pos = env.vram_start + 4 * i + 3)
    (hfind : env.find_reference pos false = some r)
    (hnig : env.is_vram_ignored pos = false)
    (hsz : r.user_declared_size = some sz)
    (hin : env.in_vram_range (r.vram + sz) = true)
    (hcs : r.sym_type = some SymbolType.CString → (r.vram + sz) % 4 = 0) :
    (btree_get? (data_scan_step env s i).symbols_info (r.vram + sz)).isSome =
      true := by
  simp only [data_scan_step]
  rw [if_pos hactive, late_rodata_trailer_symbols_info]
  rcases hpos with rfl | rfl | rfl | rfl
  · apply prior_reference_step_cuts_mono
    apply prior_reference_step_cuts_mono
    apply prior_reference_step_cuts_mono
    rw [hfind]
    exact (prior_reference_step_pad env _ _ r sz hnig hsz hin hcs).1
  · apply prior_reference_step_cuts_mono
    apply prior_reference_step_cuts_mono
    rw [hfind]
    exact (prior_reference_step_pad env _ _ r sz hnig hsz hin hcs).1
  · apply prior_reference_step_cuts_mono
    rw [hfind]
    exact (prior_reference_step_pad env _ _ r sz hnig hsz hin hcs).1
  · rw [hfind]
    exact (prior_reference_step_pad env _ _ r sz hnig hsz hin hcs).1

/-! Remaining-string bookkeeping: which blocks touch
`remaining_string_size`, and the invariant that a pending string run covers
only reference-free addresses (so the word-skipping can never hide a
reference-table entry). -/

theorem float_track_remaining (env : DataScanInput) (s : DataScanState)
    (a : Option ReferenceWrapper) (ct : Option SymbolType) (cv lo w : Nat) :
    (float_track env s a ct cv lo w).remaining_string_size =
      s.remaining_string_size := by
  simp only [float_track]
  repeat' split
  all_goals rfl

theorem pointer_search_remaining (env : DataScanInput) (s : DataScanState)
    (ct : Option SymbolType) (w : Nat) :
    (pointer_search env s ct w).remaining_string_size =
      s.remaining_string_size := by
  simp only [pointer_search]
  repeat' split
  all_goals rfl

theorem prior_reference_step_remaining (env : DataScanInput) (s : DataScanState)
    (xv : Nat) (x : Option ReferenceWrapper) :
    (prior_reference_step env s xv x).remaining_string_size =
      s.remaining_string_size := by
  simp only [prior_reference_step]
  repeat' split
  all_goals rfl

theorem late_rodata_trailer_remaining (env : DataScanInput) (s : DataScanState) :
    (late_rodata_trailer env s).remaining_string_size =
      s.remaining_string_size - 4 := by
  simp only [late_rodata_trailer]
  repeat' split
  all_goals rfl

/-- The string branch either leaves `remaining_string_size` alone or sets it
to a guessed size vetted by the in-between reference check. -/
theorem string_guess_remaining (env : DataScanInput) (s : DataScanState)
    (cv lo w : Nat) :
    (string_guess env s cv lo w).remaining_string_size =
      s.remaining_string_size ∨
    ∃ (late : Bool) (n : Nat),
      env.guess (env.find_reference cv true) lo late = .ok n ∧
      env.find_references_range (cv + 1) (cv + next_multiple_of n 4) = [] ∧
      (string_guess env s cv lo w).remaining_string_size = (n : Int) := by
  simp only [string_guess]
  split
  case isFalse => exact Or.inl rfl
  case isTrue =>
  split
  case isFalse => exact Or.inl rfl
  case isTrue =>
  split
  case h_2 => exact Or.inl rfl
  case h_1 str_size hguess =>
  split
  case isFalse => exact Or.inl rfl
  case isTrue hbetween =>
  refine Or.inr ⟨s.maybe_reached_late_rodata || s.reached_late_rodata, str_size,
    hguess, hbetween, ?_⟩
  split
  · rfl
  · rfl

theorem refs_range_empty_find (env : DataScanInput) (lo hi p : Nat)
    (hempty : env.find_references_range lo hi = [])
    (hlo : lo ≤ p) (hhi : p < hi) :
    env.find_reference p false = none := by
  rcases hf : env.find_reference p false with _ | r
  · rfl
  · exfalso
    have hf' : env.refs.find? (fun x => reference_hit false x p) = some r := hf
    have hmem : r ∈ env.refs := List.mem_of_find?_eq_some hf'
    have hhit := List.find?_some hf'
    have hvr : r.vram = p := by simpa [reference_hit] using hhit
    have hmem2 : r ∈ env.find_references_range lo hi := by
      simp only [DataScanInput.find_references_range, List.mem_filter]
      exact ⟨hmem, by simp [hvr]; omega⟩
    rw [hempty] at hmem2
    simp at hmem2

theorem next_multiple_of_four_sub (n : Nat) (h : 4 < n) :
    next_multiple_of (n - 4) 4 = next_multiple_of n 4 - 4 := by
  unfold next_multiple_of
  omega

theorem next_multiple_of_four_ge (n : Nat) (h : 0 < n) :
    4 ≤ next_multiple_of n 4 := by
  unfold next_multiple_of
  omega

theorem data_scan_step_remaining_clear (env : DataScanInput) (s : DataScanState)
    (i : Nat) (hJ : scan_string_clear env i s) :
    scan_string_clear env (i + 1) (data_scan_step env s i) := by
  unfold scan_string_clear at hJ ⊢
  simp only [data_scan_step]
  split
  case isTrue hact =>
    rw [late_rodata_trailer_remaining, prior_reference_step_remaining,
      prior_reference_step_remaining, prior_reference_step_remaining,
      prior_reference_step_remaining]
    split
    case isTrue =>
      rcases string_guess_remaining env
          (pointer_search env (float_track env s _ _ _ _ _) _ _)
          (env.vram_start + 4 * i) (4 * i)
          (env.endian.word_from_bytes (word_bytes_at env.raw_bytes (4 * i))) with
        hsame | ⟨late, n, hguess, hbetween, hrem⟩
      · rw [hsame, pointer_search_remaining, float_track_remaining]
        intro hpos
        omega
      · rw [hrem]
        intro hpos p hp1 hp2
        have hn4 : 4 < n := by omega
        have htn : ((n : Int) - 4).toNat = n - 4 := by omega
        rw [htn, next_multiple_of_four_sub n hn4] at hp2
        refine refs_range_empty_find env (env.vram_start + 4 * i + 1)
          (env.vram_start + 4 * i + next_multiple_of n 4) p hbetween ?_ ?_
        · omega
        · have := next_multiple_of_four_ge n (by omega)
          omega
    case isFalse =>
      intro hpos
      omega
  case isFalse hact =>
    rw [late_rodata_trailer_remaining]
    intro hpos p hp1 hp2
    have hs0 : 0 < s.remaining_string_size := by omega
    have h4 : 4 < s.remaining_string_size.toNat := by omega
    have htn : (s.remaining_string_size - 4).toNat =
        s.remaining_string_size.toNat - 4 := by omega
    rw [htn, next_multiple_of_four_sub _ h4] at hp2
    refine hJ hs0 p (by omega) ?_
    have := next_multiple_of_four_ge s.remaining_string_size.toNat (by omega)
    omega

theorem data_scan_states_clear (env : DataScanInput) :
    ∀ i : Nat, scan_string_clear env i
      ((List.range i).foldl (data_scan_step env) (DataScanState.init env)) := by
  intro i
  induction i with
  | zero =>
    intro h p _ _
    simp [DataScanState.init] at h
  | succ j ih =>
    rw [List.range_succ, List.foldl_append]
    simp only [List.foldl_cons, List.foldl_nil]
    exact data_scan_step_remaining_clear env _ j ih

/-- A reference-table entry is never hidden by a pending string run: when
the scan reaches the word holding `r.vram`, `remaining_string_size` is
already non-positive, so the word is processed. -/
theorem scan_reference_active (env : DataScanInput) (r : ReferenceWrapper) (i : Nat)
    (hfind : env.find_reference r.vram false = some r)
    (hlo : env.vram_start + 4 * i ≤ r.vram)
    (hhi : r.vram < env.vram_start + 4 * i + 4) :
    ((List.range i).foldl (data_scan_step env)
      (DataScanState.init env)).remaining_string_size ≤ 0 := by
  by_contra hpos
  push_neg at hpos
  have hJ := data_scan_states_clear env i
  have hge := next_multiple_of_four_ge
    ((List.range i).foldl (data_scan_step env)
      (DataScanState.init env)).remaining_string_size.toNat (by omega)
  have hnone := hJ hpos r.vram hlo (by omega)
  rw [hfind] at hnone
  exact Option.noConfusion hnone

/-! Auto-pad keys persist, and their values survive every later write that
does not target the same key with a different originator. -/

theorem find_reference_mem (env : DataScanInput) (v : Nat) (ca : Bool)
    (r : ReferenceWrapper) (h : env.find_reference v ca = some r) :
    r ∈ env.refs :=
  List.mem_of_find?_eq_some (show env.refs.find? (fun x => reference_hit ca x v) =
    some r from h)

theorem prior_reference_step_pads_mono (env : DataScanInput) (s : DataScanState)
    (xv : Nat) (x : Option ReferenceWrapper) (k : Nat)
    (h : (btree_get? s.auto_pads k).isSome = true) :
    (btree_get? (prior_reference_step env s xv x).auto_pads k).isSome = true := by
  simp only [prior_reference_step]
  repeat' split
  all_goals
    first
    | exact h
    | exact (btree_insert_isSome _ _ _ _).mpr (Or.inr h)

theorem string_guess_pads_mono (env : DataScanInput) (s : DataScanState)
    (cv lo w k : Nat)
    (h : (btree_get? s.auto_pads k).isSome = true) :
    (btree_get? (string_guess env s cv lo w).auto_pads k).isSome = true := by
  simp only [string_guess]
  repeat' split
  all_goals
    first
    | exact h
    | exact (btree_insert_isSome _ _ _ _).mpr (Or.inr h)
    | exact (btree_insert_isSome _ _ _ _).mpr
        (Or.inr ((btree_insert_isSome _ _ _ _).mpr (Or.inr h)))

theorem data_scan_step_pads_mono (env : DataScanInput) (s : DataScanState)
    (i k : Nat) (h : (btree_get? s.auto_pads k).isSome = true) :
    (btree_get? (data_scan_step env s i).auto_pads k).isSome = true := by
  simp only [data_scan_step]
  split
  · rw [late_rodata_trailer_auto_pads]
    apply prior_reference_step_pads_mono
    apply prior_reference_step_pads_mono
    apply prior_reference_step_pads_mono
    apply prior_reference_step_pads_mono
    split
    · apply string_guess_pads_mono
      rw [pointer_search_auto_pads, float_track_auto_pads]
      exact h
    · exact h
  · rw [late_rodata_trailer_auto_pads]
    exact h

theorem data_scan_steps_pads_mono (env : DataScanInput) (k : Nat)
    (l : List Nat) :
    ∀ s : DataScanState, (btree_get? s.auto_pads k).isSome = true →
      (btree_get? ((l.foldl (data_scan_step env) s)).auto_pads k).isSome = true := by
  induction l with
  | nil => exact fun s h => h
  | cons i rest ih =>
    intro s h
    rw [List.foldl_cons]
    exact ih _ (data_scan_step_pads_mono env s i k h)

/-- The prior-reference loop preserves an `auto_pads` value at `K` when
every reference whose sized end is `K` originates at the stored value
(its own re-write then stores the same value). -/
theorem prior_reference_step_pads_value (env : DataScanInput) (s : DataScanState)
    (xv : Nat) (x : Option ReferenceWrapper) (K w : Nat)
    (hP : btree_get? s.auto_pads K = some w)
    (Hu : ∀ r' : ReferenceWrapper, x = some r' → ∀ sz' : Nat,
      r'.user_declared_size = some sz' → r'.vram + sz' = K → r'.vram = w) :
    btree_get? (prior_reference_step env s xv x).auto_pads K = some w := by
  simp only [prior_reference_step]
  repeat' split
  all_goals
    first
    | exact hP
    | (rw [btree_get?_insert]
       split
       · rename_i wrapper optsz size hsz hin hallow hK
         rw [Hu wrapper rfl size hsz hK.symm]
       · exact hP)

/-- The string branch preserves an `auto_pads` value at `K`: the string-start
pad is guarded by a `contains_key` check, and the one-past-the-string pad
misses `K` whenever no guessed string's pad address collides with it. -/
theorem string_guess_pads_value (env : DataScanInput) (s : DataScanState)
    (cv lo w K val : Nat)
    (hP : btree_get? s.auto_pads K = some val)
    (Hs : ∀ (late : Bool) (n : Nat),
      env.guess (env.find_reference cv true) lo late = .ok n →
      string_pad_next_vram env cv lo (next_multiple_of n 4) ≠ K) :
    btree_get? (string_guess env s cv lo w).auto_pads K = some val := by
  simp only [string_guess]
  split
  case isFalse => exact hP
  case isTrue =>
  split
  case isFalse => exact hP
  case isTrue =>
  split
  case h_2 => exact hP
  case h_1 str_size hguess =>
  split
  case isFalse => exact hP
  case isTrue hbetween =>
  have hne := Hs (s.maybe_reached_late_rodata || s.reached_late_rodata)
    str_size hguess
  have hP1 : btree_get? (if (btree_get? s.auto_pads cv).isSome = true then
      s.auto_pads else btree_insert s.auto_pads cv cv) K = some val := by
    split
    case isTrue => exact hP
    case isFalse hcont =>
      rw [btree_get?_insert]
      split
      case isTrue hKcv =>
        exfalso
        rw [hKcv] at hP
        rw [hP] at hcont
        exact hcont rfl
      case isFalse => exact hP
  split
  case isTrue =>
    rw [btree_get?_insert]
    rw [if_neg (fun hK => hne hK.symm)]
    exact hP1
  case isFalse => exact hP1

theorem data_scan_step_pads_value (env : DataScanInput) (s : DataScanState)
    (i K w : Nat)
    (hP : btree_get? s.auto_pads K = some w)
    (Hs : ∀ (late : Bool) (n : Nat),
      env.guess (env.find_reference (env.vram_start + 4 * i) true) (4 * i) late =
        .ok n →
      string_pad_next_vram env (env.vram_start + 4 * i) (4 * i)
        (next_multiple_of n 4) ≠ K)
    (Hu : ∀ r' ∈ env.refs, ∀ sz' : Nat, r'.user_declared_size = some sz' →
      r'.vram + sz' = K → r'.vram = w) :
    btree_get? (data_scan_step env s i).auto_pads K = some w := by
  have hu : ∀ (pos : Nat) (r' : ReferenceWrapper),
      env.find_reference pos false = some r' → ∀ sz' : Nat,
      r'.user_declared_size = some sz' → r'.vram + sz' = K → r'.vram = w :=
    fun pos r' hr' sz' hsz hK =>
      Hu r' (find_reference_mem env pos false r' hr') sz' hsz hK
  simp only [data_scan_step]
  split
  case isTrue =>
    rw [late_rodata_trailer_auto_pads]
    refine prior_reference_step_pads_value _ _ _ _ _ _ ?_ (hu _)
    refine prior_reference_step_pads_value _ _ _ _ _ _ ?_ (hu _)
    refine prior_reference_step_pads_value _ _ _ _ _ _ ?_ (hu _)
    refine prior_reference_step_pads_value _ _ _ _ _ _ ?_ (hu _)
    split
    case isTrue =>
      refine string_guess_pads_value _ _ _ _ _ _ _ ?_ Hs
      rw [pointer_search_auto_pads, float_track_auto_pads]
      exact hP
    case isFalse => exact hP
  case isFalse =>
    rw [late_rodata_trailer_auto_pads]
    exact hP

theorem data_scan_steps_pads_value (env : DataScanInput) (K w : Nat)
    (Hs : ∀ (j : Nat) (late : Bool) (n : Nat),
      env.guess (env.find_reference (env.vram_start + 4 * j) true) (4 * j) late =
        .ok n →
      string_pad_next_vram env (env.vram_start + 4 * j) (4 * j)
        (next_multiple_of n 4) ≠ K)
    (Hu : ∀ r' ∈ env.refs, ∀ sz' : Nat, r'.user_declared_size = some sz' →
      r'.vram + sz' = K → r'.vram = w) :
    ∀ (l : List Nat) (s : DataScanState), btree_get? s.auto_pads K = some w →
      btree_get? ((l.foldl (data_scan_step env) s)).auto_pads K = some w := by
  intro l
  induction l with
  | nil => exact fun s h => h
  | cons j rest ih =>
    intro s h
    rw [List.foldl_cons]
    exact ih _ (data_scan_step_pads_value env s j K w h (Hs j) Hu)

theorem data_scan_step_adds_pad (env : DataScanInput) (s : DataScanState)
    (i : Nat) (r : ReferenceWrapper) (pos sz : Nat)
    (hactive : s.remaining_string_size ≤ 0)
    (hpos : pos = env.vram_start + 4 * i ∨ pos = env.vram_start + 4 * i + 1 ∨
      pos = env.vram_start + 4 * i + 2 ∨ pos = env.vram_start + 4 * i + 3)
    (hfind : env.find_reference pos false = some r)
    (hnig : env.is_vram_ignored pos = false)
    (hsz : r.user_declared_size = some sz)
    (hin : env.in_vram_range (r.vram + sz) = true)
    (hcs : r.sym_type = some SymbolType.CString → (r.vram + sz) % 4 = 0) :
    (btree_get? (data_scan_step env s i).auto_pads (r.vram + sz)).isSome = true := by
  have hest : ∀ s' : DataScanState,
      (btree_get? (prior_reference_step env s' pos (some r)).auto_pads
        (r.vram + sz)).isSome = true := by
    intro s'
    rw [(prior_reference_step_pad env s' pos r sz hnig hsz hin hcs).2]
    rfl
  simp only [data_scan_step]
  rw [if_pos hactive, late_rodata_trailer_auto_pads]
  rcases hpos with rfl | rfl | rfl | rfl
  · apply prior_reference_step_pads_mono
    apply prior_reference_step_pads_mono
    apply prior_reference_step_pads_mono
    rw [hfind]
    exact hest _
  · apply prior_reference_step_pads_mono
    apply prior_reference_step_pads_mono
    rw [hfind]
    exact hest _
  · apply prior_reference_step_pads_mono
    rw [hfind]
    exact hest _
  · rw [hfind]
    exact hest _

/-- Observing the user-sized reference `r` leaves
`auto_pads[r.vram + sz] = r.vram` at the end of its word's iteration, as
long as `r` is the only sized originator of that key among the table's
references (later positions of the same word then re-store the same
value). -/
theorem data_scan_step_sets_pad (env : DataScanInput) (s : DataScanState)
    (i : Nat) (r : ReferenceWrapper) (pos sz : Nat)
    (hactive : s.remaining_string_size ≤ 0)
    (hpos : pos = env.vram_start + 4 * i ∨ pos = env.vram_start + 4 * i + 1 ∨
      pos = env.vram_start + 4 * i + 2 ∨ pos = env.vram_start + 4 * i + 3)
    (hfind : env.find_reference pos false = some r)
    (hnig : env.is_vram_ignored pos = false)
    (hsz : r.user_declared_size = some sz)
    (hin : env.in_vram_range (r.vram + sz) = true)
    (hcs : r.sym_type = some SymbolType.CString → (r.vram + sz) % 4 = 0)
    (Hu : ∀ r' ∈ env.refs, ∀ sz' : Nat, r'.user_declared_size = some sz' →
      r'.vram + sz' = r.vram + sz → r'.vram = r.vram) :
    btree_get? (data_scan_step env s i).auto_pads (r.vram + sz) = some r.vram := by
  have hu' : ∀ (q : Nat), ∀ r' : ReferenceWrapper,
      env.find_reference q false = some r' → ∀ sz' : Nat,
      r'.user_declared_size = some sz' → r'.vram + sz' = r.vram + sz →
      r'.vram = r.vram :=
    fun q r' hr' sz' hs2 hK =>
      Hu r' (find_reference_mem env q false r' hr') sz' hs2 hK
  simp only [data_scan_step]
  rw [if_pos hactive, late_rodata_trailer_auto_pads]
  rcases hpos with rfl | rfl | rfl | rfl
  · refine prior_reference_step_pads_value _ _ _ _ _ _ ?_ (hu' _)
    refine prior_reference_step_pads_value _ _ _ _ _ _ ?_ (hu' _)
    refine prior_reference_step_pads_value _ _ _ _ _ _ ?_ (hu' _)
    rw [hfind]
    exact (prior_reference_step_pad env _ _ r sz hnig hsz hin hcs).2
  · refine prior_reference_step_pads_value _ _ _ _ _ _ ?_ (hu' _)
    refine prior_reference_step_pads_value _ _ _ _ _ _ ?_ (hu' _)
    rw [hfind]
    exact (prior_reference_step_pad env _ _ r sz hnig hsz hin hcs).2
  · refine prior_reference_step_pads_value _ _ _ _ _ _ ?_ (hu' _)
    rw [hfind]
    exact (prior_reference_step_pad env _ _ r sz hnig hsz hin hcs).2
  · rw [hfind]
    exact (prior_reference_step_pad env _ _ r sz hnig hsz hin hcs).2

/-! The noload pad path. -/

theorem btset_insert_mem (l : List Nat) (k a : Nat) :
    a ∈ btset_insert l k ↔ a = k ∨ a ∈ l := by
  induction l with
  | nil => simp [btset_insert]
  | cons k0 rest ih =>
    simp only [btset_insert]
    split
    · simp [List.mem_cons]
    · split
      · rename_i h1 h2
        subst h2
        simp only [List.mem_cons]
        constructor
        · exact fun h => Or.inr h
        · rintro (rfl | h)
          · exact Or.inl rfl
          · exact h
      · simp only [List.mem_cons, ih]
        constructor
        · rintro (rfl | h)
          · exact Or.inr (Or.inl rfl)
          · rcases h with h | h
            · exact Or.inl h
            · exact Or.inr (Or.inr h)
        · rintro (h | h | h)
          · exact Or.inr (Or.inl h)
          · exact Or.inl h
          · exact Or.inr (Or.inr h)

theorem noload_step_cut_mono (vend : Nat) (acc : List Nat × List (Nat × Nat))
    (sym : SymbolMetadata) (a : Nat) (h : a ∈ acc.1) :
    a ∈ (noload_step vend acc sym).1 := by
  simp only [noload_step]
  repeat' split
  all_goals
    first
    | exact (btset_insert_mem _ _ _).mpr (Or.inr h)
    | exact (btset_insert_mem _ _ _).mpr
        (Or.inr ((btset_insert_mem _ _ _).mpr (Or.inr h)))

theorem noload_step_pads_mono (vend : Nat) (acc : List Nat × List (Nat × Nat))
    (sym : SymbolMetadata) (k : Nat)
    (h : (btree_get? acc.2 k).isSome = true) :
    (btree_get? (noload_step vend acc sym).2 k).isSome = true := by
  simp only [noload_step]
  repeat' split
  all_goals
    first
    | exact h
    | exact (btree_insert_isSome _ _ _ _).mpr (Or.inr h)

theorem noload_step_pads_value (vend : Nat) (acc : List Nat × List (Nat × Nat))
    (sym : SymbolMetadata) (K w : Nat)
    (hP : btree_get? acc.2 K = some w)
    (Hu : ∀ sz' : Nat, sym.user_declared_size = some sz' →
      sym.vram + sz' = K → sym.vram = w) :
    btree_get? (noload_step vend acc sym).2 K = some w := by
  simp only [noload_step]
  repeat' split
  all_goals
    first
    | exact hP
    | (rename_i optsz size hsz hne
       rw [btree_get?_insert]
       split
       · rename_i hK
         rw [Hu size hsz hK.symm]
       · exact hP)

theorem noload_step_no_end (vend : Nat) (acc : List Nat × List (Nat × Nat))
    (sym : SymbolMetadata)
    (h : btree_get? acc.2 vend = none) :
    btree_get? (noload_step vend acc sym).2 vend = none := by
  simp only [noload_step]
  repeat' split
  all_goals
    first
    | exact h
    | (rename_i optsz size hsz hne
       rw [btree_get?_insert_ne _ _ _ _ (fun he => hne he.symm)]
       exact h)

theorem noload_fold_cut_mono (vend : Nat) (a : Nat) :
    ∀ (l : List SymbolMetadata) (acc : List Nat × List (Nat × Nat)),
      a ∈ acc.1 → a ∈ (l.foldl (noload_step vend) acc).1 := by
  intro l
  induction l with
  | nil => exact fun acc h => h
  | cons x rest ih =>
    intro acc h
    rw [List.foldl_cons]
    exact ih _ (noload_step_cut_mono vend acc x a h)

theorem noload_fold_pads_mono (vend : Nat) (k : Nat) :
    ∀ (l : List SymbolMetadata) (acc : List Nat × List (Nat × Nat)),
      (btree_get? acc.2 k).isSome = true →
      (btree_get? (l.foldl (noload_step vend) acc).2 k).isSome = true := by
  intro l
  induction l with
  | nil => exact fun acc h => h
  | cons x rest ih =>
    intro acc h
    rw [List.foldl_cons]
    exact ih _ (noload_step_pads_mono vend acc x k h)

theorem noload_fold_pads_value (vend K w : Nat) :
    ∀ l : List SymbolMetadata,
      (∀ m' ∈ l, ∀ sz' : Nat, m'.user_declared_size = some sz' →
        m'.vram + sz' = K → m'.vram = w) →
      ∀ acc : List Nat × List (Nat × Nat), btree_get? acc.2 K = some w →
        btree_get? (l.foldl (noload_step vend) acc).2 K = some w := by
  intro l
  induction l with
  | nil => exact fun _ acc h => h
  | cons x rest ih =>
    intro Hl acc h
    rw [List.foldl_cons]
    exact ih (fun m' hm' => Hl m' (List.mem_cons_of_mem _ hm')) _
      (noload_step_pads_value vend acc x K w h (Hl x (List.mem_cons_self ..)))

theorem noload_fold_no_end (vend : Nat) :
    ∀ (l : List SymbolMetadata) (acc : List Nat × List (Nat × Nat)),
      btree_get? acc.2 vend = none →
      btree_get? (l.foldl (noload_step vend) acc).2 vend = none := by
  intro l
  induction l with
  | nil => exact fun acc h => h
  | cons x rest ih =>
    intro acc h
    rw [List.foldl_cons]
    exact ih _ (noload_step_no_end vend acc x h)

theorem noload_step_sets_pad (vend : Nat) (acc : List Nat × List (Nat × Nat))
    (m : SymbolMetadata) (sz : Nat)
    (hsz : m.user_declared_size = some sz) (hne : m.vram + sz ≠ vend) :
    (m.vram + sz) ∈ (noload_step vend acc m).1 ∧
    btree_get? (noload_step vend acc m).2 (m.vram + sz) = some m.vram := by
  simp only [noload_step, hsz]
  rw [if_pos hne]
  exact ⟨(btset_insert_mem _ _ _).mpr (Or.inl rfl), btree_get?_insert_self _ _ _⟩

/-- Pad synthesis of `SectionNoload::new`: an in-range symbol with a
user-declared size whose end misses the section end always yields the cut
point and the `auto_pads` key at `vram + size`; the stored attribution is
the symbol's own `vram` when it is the only sized originator of that key,
and the section end itself never carries a pad. -/
theorem section_noload_pad (syms : List SymbolMetadata) (vstart vend : Nat)
    (m : SymbolMetadata) (sz : Nat)
    (hm : m ∈ syms) (hlo : vstart ≤ m.vram) (hhi : m.vram < vend)
    (hsz : m.user_declared_size = some sz) (hne : m.vram + sz ≠ vend) :
    (m.vram + sz) ∈ (section_noload_symbols_info syms vstart vend).1 ∧
    (btree_get? (section_noload_symbols_info syms vstart vend).2
      (m.vram + sz)).isSome = true ∧
    ((∀ m' ∈ syms, vstart ≤ m'.vram → m'.vram < vend →
        ∀ sz' : Nat, m'.user_declared_size = some sz' →
        m'.vram + sz' = m.vram + sz → m'.vram = m.vram) →
      btree_get? (section_noload_symbols_info syms vstart vend).2
        (m.vram + sz) = some m.vram) ∧
    btree_get? (section_noload_symbols_info syms vstart vend).2 vend = none := by
  have hmf : m ∈ syms.filter (fun x => vstart ≤ x.vram && x.vram < vend) :=
    List.mem_filter.mpr ⟨hm, by simp [hlo, hhi]⟩
  obtain ⟨l1, l2, hsplit⟩ := List.append_of_mem hmf
  unfold section_noload_symbols_info
  rw [hsplit, List.foldl_append, List.foldl_cons]
  have hest := noload_step_sets_pad vend
    (l1.foldl (noload_step vend) ([vstart], [])) m sz hsz hne
  refine ⟨noload_fold_cut_mono vend _ l2 _ hest.1,
    noload_fold_pads_mono vend _ l2 _ (by rw [hest.2]; rfl), ?_, ?_⟩
  · intro Hu
    refine noload_fold_pads_value vend _ m.vram l2 ?_ _ hest.2
    intro m' hm' sz' hsz' hK
    have hm'f : m' ∈ syms.filter (fun x => vstart ≤ x.vram && x.vram < vend) := by
      rw [hsplit]
      exact List.mem_append_right _ (List.mem_cons_of_mem _ hm')
    have hmp := List.mem_filter.mp hm'f
    have hcond := hmp.2
    simp at hcond
    exact Hu m' hmp.1 hcond.1 hcond.2 sz' hsz' hK
  · refine noload_fold_no_end vend l2 _ (noload_step_no_end vend _ m ?_)
    exact noload_fold_no_end vend l1 _ rfl

/-- C7 (amended): pad synthesis for user-declared sized symbols, across both
cited paths.
Data path (`DataSection::find_symbols` lines 408–433): for every reference
`r` with a user-declared size that the word scan observes — `r.vram` lies in
the exactly-tiled words and is not vram-ignored — with `r.vram + size`
strictly inside the section and `r` not a `CString` with a non-word-aligned
end, the final cut points and the final `auto_pads` map (the map
`DataSection::new` consumes for `auto_created_pad_by`) both contain the key
`r.vram + size`; the stored attribution is `r.vram` itself whenever no other
reference's sized end and no guessed string's pad address collides with that
key (a later colliding insert overwrites it); and no `auto_pads` key ever
reaches the section end, so no pad is synthesized when `r.vram + size`
equals the section end.
Noload path (`SectionNoload::new` lines 80–94): every in-range symbol with a
user-declared size yields the cut point and the `auto_pads` entry at
`vram + size` unconditionally — no `CString` or alignment gate — unless the
end lands exactly on the section end, with the same last-writer attribution,
and the section end itself never carries a pad. -/
theorem c7_pad_synthesis :
    (∀ (env : DataScanInput) (r : ReferenceWrapper) (sz : Nat),
      env.find_reference r.vram false = some r →
      env.vram_start ≤ r.vram →
      r.vram < env.vram_start + 4 * (env.raw_bytes.length / 4) →
      env.is_vram_ignored r.vram = false →
      r.user_declared_size = some sz →
      env.in_vram_range (r.vram + sz) = true →
      (r.sym_type = some SymbolType.CString → (r.vram + sz) % 4 = 0) →
      (btree_get? (data_scan env).symbols_info (r.vram + sz)).isSome = true ∧
      (btree_get? (data_scan env).auto_pads (r.vram + sz)).isSome = true ∧
      ((∀ r' ∈ env.refs, ∀ sz' : Nat, r'.user_declared_size = some sz' →
          r'.vram + sz' = r.vram + sz → r'.vram = r.vram) →
        (∀ (j : Nat) (late : Bool) (n : Nat),
          env.guess (env.find_reference (env.vram_start + 4 * j) true) (4 * j)
            late = .ok n →
          string_pad_next_vram env (env.vram_start + 4 * j) (4 * j)
            (next_multiple_of n 4) ≠ r.vram + sz) →
        btree_get? (data_scan env).auto_pads (r.vram + sz) = some r.vram) ∧
      (∀ k, (btree_get? (data_scan env).auto_pads k).isSome = true →
        k < env.vram_end)) ∧
    (∀ (syms : List SymbolMetadata) (vram_start vram_end : Nat)
        (m : SymbolMetadata) (sz : Nat),
      m ∈ syms → vram_start ≤ m.vram → m.vram < vram_end →
      m.user_declared_size = some sz → m.vram + sz ≠ vram_end →
      (m.vram + sz) ∈ (section_noload_symbols_info syms vram_start vram_end).1 ∧
      (btree_get? (section_noload_symbols_info syms vram_start vram_end).2
        (m.vram + sz)).isSome = true ∧
      ((∀ m' ∈ syms, vram_start ≤ m'.vram → m'.vram < vram_end →
          ∀ sz' : Nat, m'.user_declared_size = some sz' →
          m'.vram + sz' = m.vram + sz → m'.vram = m.vram) →
        btree_get? (section_noload_symbols_info syms vram_start vram_end).2
          (m.vram + sz) = some m.vram) ∧
      btree_get? (section_noload_symbols_info syms vram_start vram_end).2
        vram_end = none) := by
  constructor
  · intro env r sz hfind hstart hscan hnig hsz hin hcs
    set i := (r.vram - env.vram_start) / 4 with hi_def
    have hlo : env.vram_start + 4 * i ≤ r.vram := by omega
    have hhi4 : r.vram < env.vram_start + 4 * i + 4 := by omega
    have hpos : r.vram = env.vram_start + 4 * i ∨
        r.vram = env.vram_start + 4 * i + 1 ∨
        r.vram = env.vram_start + 4 * i + 2 ∨
        r.vram = env.vram_start + 4 * i + 3 := by omega
    have hibound : i < env.raw_bytes.length / 4 := by omega
    have hactive := scan_reference_active env r i hfind hlo hhi4
    have hsplitN : env.raw_bytes.length / 4 =
        (i + 1) + (env.raw_bytes.length / 4 - (i + 1)) := by omega
    refine ⟨?_, ?_, ?_, data_scan_pads_bound env⟩
    · unfold data_scan
      rw [hsplitN, List.range_add, List.foldl_append, List.range_succ,
        List.foldl_append]
      simp only [List.foldl_cons, List.foldl_nil]
      exact data_scan_steps_cuts_mono env _ _ _
        (data_scan_step_adds_pad_cut env _ i r r.vram sz hactive hpos hfind hnig
          hsz hin hcs)
    · unfold data_scan
      rw [hsplitN, List.range_add, List.foldl_append, List.range_succ,
        List.foldl_append]
      simp only [List.foldl_cons, List.foldl_nil]
      exact data_scan_steps_pads_mono env _ _ _
        (data_scan_step_adds_pad env _ i r r.vram sz hactive hpos hfind hnig
          hsz hin hcs)
    · intro Hu Hs
      unfold data_scan
      rw [hsplitN, List.range_add, List.foldl_append, List.range_succ,
        List.foldl_append]
      simp only [List.foldl_cons, List.foldl_nil]
      exact data_scan_steps_pads_value env _ _ Hs Hu _ _
        (data_scan_step_sets_pad env _ i r r.vram sz hactive hpos hfind hnig
          hsz hin hcs Hu)
  · intro syms vstart vend m sz hm hlo hhi hsz hne
    exact section_noload_pad syms vstart vend m sz hm hlo hhi hsz hne

/-- C7 witness: both paths of the amended theorem at concrete inputs.  Data
path: `wordPadEnv`'s user-sized `Word` reference at `0x80000000` yields the
cut point, the pad key, and — its end being uncontested — the final
attribution `auto_pads[0x80000004] = 0x80000000`.  Noload path:
`noloadPadSym` (size 8) in the bss section `[0x80000000, 0x80000010)` yields
the cut and `auto_pads[0x80000008] = 0x80000000`, with no pad at the section
end. -/
theorem c7_pad_synthesis_witness :
    ((btree_get? (data_scan wordPadEnv).symbols_info (0x80000000 + 4)).isSome =
        true ∧
      btree_get? (data_scan wordPadEnv).auto_pads (0x80000000 + 4) =
        some 0x80000000) ∧
    ((0x80000000 + 8) ∈
        (section_noload_symbols_info [noloadPadSym] 0x80000000 0x80000010).1 ∧
      btree_get? (section_noload_symbols_info [noloadPadSym] 0x80000000
        0x80000010).2 (0x80000000 + 8) = some 0x80000000 ∧
      btree_get? (section_noload_symbols_info [noloadPadSym] 0x80000000
        0x80000010).2 0x80000010 = none) := by
  have hdata := c7_pad_synthesis.1 wordPadEnv
    ⟨0x80000000, some SymbolType.Word, some 4, some 4, 0⟩ 4
    (by decide) (by decide) (by decide) (by decide) (by decide) (by decide)
    (by decide)
  have hnoload := c7_pad_synthesis.2 [noloadPadSym] 0x80000000 0x80000010
    noloadPadSym 8 (by decide) (by decide) (by decide) (by decide) (by decide)
  refine ⟨⟨hdata.1, ?_⟩, hnoload.1, ?_, hnoload.2.2.2⟩
  · refine hdata.2.2.1 ?_ ?_
    · intro r' hr' sz' hs' hK
      have hr : r' = (⟨0x80000000, some SymbolType.Word, some 4, some 4, 0⟩ :
          ReferenceWrapper) := by
        simpa [wordPadEnv] using hr'
      rw [hr]
    · intro j late n h
      exact absurd h (by simp [wordPadEnv])
  · refine hnoload.2.2.1 ?_
    intro m' hm' h1 h2 sz' hs' hK
    have hm : m' = noloadPadSym := by simpa using hm'
    rw [hm]

/-! ## C9: unpaired `lui` relocation -/

theorem foldl_length_preserved {β : Type}
    (step : List (Option RelocationInfo) → β → List (Option RelocationInfo))
    (hstep : ∀ rl e, (step rl e).length = rl.length) :
    ∀ (l : List β) (rl : List (Option RelocationInfo)),
      (l.foldl step rl).length = rl.length := by
  intro l
  induction l with
  | nil => intro rl; rfl
  | cons e rest ih =>
    intro rl
    rw [List.foldl_cons, ih, hstep]

theorem constant_reloc_step_length (instrs : List Instruction) (rom_start : Nat)
    (rl : List (Option RelocationInfo)) (e : Nat × Nat) :
    (constant_reloc_step instrs rom_start rl e).length = rl.length :=
  List.length_set ..

theorem unpaired_lui_step_length (ia : InstructionAnalysisResult) (rom_start : Nat)
    (rl : List (Option RelocationInfo)) (e : Nat × (Nat × Nat)) :
    (unpaired_lui_step ia rom_start rl e).length = rl.length := by
  unfold unpaired_lui_step
  split
  · exact List.length_set ..
  · rfl

theorem foldl_get_preserved {β : Type}
    (step : List (Option RelocationInfo) → β → List (Option RelocationInfo)) (idx : Nat)
    (l : List β)
    (hstep : ∀ rl e, e ∈ l → (step rl e)[idx]? = rl[idx]?) :
    ∀ (rl : List (Option RelocationInfo)), (l.foldl step rl)[idx]? = rl[idx]? := by
  induction l with
  | nil => intro rl; rfl
  | cons e rest ih =>
    intro rl
    rw [List.foldl_cons]
    rw [ih (fun rl' e' he' => hstep rl' e' (List.mem_cons_of_mem _ he')),
      hstep rl e (List.mem_cons_self ..)]

theorem word_index_injective (rom_start r rom : Nat) (hr : rom_start ≤ r)
    (hrom : rom_start ≤ rom) (ha : (r - rom_start) % 4 = 0)
    (hb : (rom - rom_start) % 4 = 0) (hne : r ≠ rom) :
    (r - rom_start) / 4 ≠ (rom - rom_start) / 4 := by
  intro h
  apply hne
  have h1 : (r - rom_start) / 4 * 4 = r - rom_start :=
    Nat.div_mul_cancel (Nat.dvd_of_mod_eq_zero ha)
  have h2 : (rom - rom_start) / 4 * 4 = rom - rom_start :=
    Nat.div_mul_cancel (Nat.dvd_of_mod_eq_zero hb)
  omega

/-- C9: every hi (`lui`) instruction of the analysis whose rom offset is
paired with neither a resolved address (`address_per_hi_instr`) nor a
recognized constant (`constant_per_instr`) ends up — at its instruction
slot — with an `R_CUSTOM_CONSTANT_HI` relocation whose referenced literal is
`imm16 << 16`. -/
theorem c9_unpaired_lui_reloc (relocs : List (Option RelocationInfo))
    (ia : InstructionAnalysisResult) (rom_start : Nat) (instrs : List Instruction)
    (rom reg imm : Nat)
    (hmem : (rom, (reg, imm)) ∈ ia.hi_instrs)
    (hnodup : (ia.hi_instrs.map Prod.fst).Nodup)
    (hnoaddr : ia.address_per_hi_instr.find? (fun p => p.1 = rom) = none)
    (hnoconst : ia.constant_per_instr.find? (fun p => p.1 = rom) = none)
    (halign : ∀ r ∈ ia.hi_instrs.map Prod.fst, rom_start ≤ r ∧ (r - rom_start) % 4 = 0)
    (hidx : (rom - rom_start) / 4 < relocs.length) :
    (generate_relocs_from_analyzer relocs ia rom_start instrs)[(rom - rom_start) / 4]? =
      some (some (RelocationType.R_CUSTOM_CONSTANT_HI.new_reloc_info
        (.SymName (hex_format ((imm * 2 ^ 16) % 2 ^ 32)) 0))) := by
  obtain ⟨s, t, hl⟩ := List.append_of_mem hmem
  unfold generate_relocs_from_analyzer
  rw [hl, List.foldl_append, List.foldl_cons]
  have hrom_facts := halign rom (by rw [hl]; simp)
  have hlen0 : ∀ rl : List (Option RelocationInfo),
      (s.foldl (unpaired_lui_step ia rom_start) rl).length = rl.length :=
    fun rl => foldl_length_preserved _ (unpaired_lui_step_length ia rom_start) s rl
  have hlenc : (ia.constant_per_instr.foldl (constant_reloc_step instrs rom_start)
      relocs).length = relocs.length :=
    foldl_length_preserved _ (constant_reloc_step_length instrs rom_start) _ relocs
  have hstep_write : unpaired_lui_step ia rom_start
      (s.foldl (unpaired_lui_step ia rom_start)
        (ia.constant_per_instr.foldl (constant_reloc_step instrs rom_start) relocs))
      (rom, (reg, imm)) =
      (s.foldl (unpaired_lui_step ia rom_start)
        (ia.constant_per_instr.foldl (constant_reloc_step instrs rom_start) relocs)).set
        ((rom - rom_start) / 4)
        (some (RelocationType.R_CUSTOM_CONSTANT_HI.new_reloc_info
          (.SymName (hex_format ((imm * 2 ^ 16) % 2 ^ 32)) 0))) := by
    unfold unpaired_lui_step
    rw [if_pos]
    simp [hnoaddr, hnoconst]
  rw [hstep_write]
  have hnotmem : rom ∉ t.map Prod.fst := by
    have hnd := hnodup
    rw [hl, List.map_append, List.map_cons] at hnd
    exact (List.nodup_cons.mp hnd.of_append_right).1
  rw [foldl_get_preserved _ _ t]
  · rw [List.getElem?_set_self']
    have : (rom - rom_start) / 4 <
        (s.foldl (unpaired_lui_step ia rom_start)
          (ia.constant_per_instr.foldl (constant_reloc_step instrs rom_start)
            relocs)).length := by
      rw [hlen0, hlenc]
      exact hidx
    rw [List.getElem?_eq_getElem this]
    rfl
  · intro rl e he
    unfold unpaired_lui_step
    split
    · have hne : e.1 ≠ rom := by
        intro hcontra
        exact hnotmem (hcontra ▸ List.mem_map_of_mem Prod.fst he)
      have he_facts := halign e.1
        (by rw [hl]; exact List.mem_map_of_mem _ (by simp [he]))
      exact List.getElem?_set_ne
        (word_index_injective rom_start e.1 rom he_facts.1 hrom_facts.1
          he_facts.2 hrom_facts.2 hne)
    · rfl

/-- C9 witness: a single unpaired `lui $reg, 0x8000` at rom `0x1004`
(`rom_start = 0x1000`) produces `R_CUSTOM_CONSTANT_HI` referencing
`"0x80000000"` in slot 1. -/
theorem c9_unpaired_lui_reloc_witness :
    (generate_relocs_from_analyzer [none, none] ⟨[(0x1004, (5, 0x8000))], [], []⟩
        0x1000 [⟨true⟩, ⟨true⟩])[(0x1004 - 0x1000) / 4]? =
      some (some (RelocationType.R_CUSTOM_CONSTANT_HI.new_reloc_info
        (.SymName (hex_format ((0x8000 * 2 ^ 16) % 2 ^ 32)) 0))) :=
  c9_unpaired_lui_reloc [none, none] ⟨[(0x1004, (5, 0x8000))], [], []⟩ 0x1000
    [⟨true⟩, ⟨true⟩] 0x1004 5 0x8000 (by decide) (by decide) (by decide) (by decide)
    (by decide) (by decide)

end Spimdisasm
